import Mathlib

/-!
# acme-dns: account and challenge-record store

A shallow embedding of the persistence layer of acme-dns (`db.go`) and of the
HTTP handlers that call it (`api.go`, `updatename.go`).

The database is a value of type `DBState` holding the three tables `acmedns`,
`records` and `txt` in storage order.  Every store method is a function from a
state (plus the values the Go code reads from its environment: the clock, the
random account, the outcome of each SQL statement) to a new state and the
returned error.  A transaction works on a copy of the state which replaces the
committed state on `Commit` and is dropped on `Rollback`.
-/

namespace AcmeDns

/-! ## Data model -/

/-- Go `error` values are modelled by their message. -/
abbrev Error := String

/-- Constant `DBVersion` of `db.go`. -/
def DBVersion : Int := 2

/-- One row of table `txt` (columns `Subdomain`, `Value`, `LastUpdate`).  The
`rowid` of a row is its position in the table. -/
structure TxtRow where
  Subdomain : String
  Value : String
  LastUpdate : Int
deriving DecidableEq, Repr

/-- One row of table `records`.  Column `AllowFrom` holds the allow-list; its
JSON rendering is not modelled, the column holds the list itself. -/
structure RecordRow where
  Username : String
  Password : String
  Subdomain : String
  AllowFrom : List String
  DomainName : String
  CreatedAt : Int
  UpdatedAt : Int
deriving DecidableEq, Repr

/-- One row of table `acmedns` (columns `Name`, `Value`). -/
structure MetaRow where
  Name : String
  Value : String
deriving DecidableEq, Repr

/-- The committed content of the database, every table in storage order. -/
structure DBState where
  acmedns : List MetaRow
  records : List RecordRow
  txt : List TxtRow
deriving DecidableEq, Repr

/-- Go struct `ACMETxtPost`: the body of an update request. -/
structure ACMETxtPost where
  Subdomain : String
  Value : String
deriving DecidableEq, Repr

/-- Go struct `ACMETxt` as the store fills it. -/
structure ACMETxt where
  Username : String
  Password : String
  Subdomain : String
  Value : String
  AllowFrom : List String
  DomainName : String
  Fulldomain : String
  CreatedAt : Int
  UpdatedAt : Int
deriving DecidableEq, Repr

/-! ## Challenge records: `Update` and `GetTXTForDomain` -/

/-- Smallest `LastUpdate` among the rows of `subdomain`: the sort key of the first
row of `SELECT ... WHERE Subdomain=$3 ORDER BY LastUpdate`. -/
def minLastUpdate (subdomain : String) : List TxtRow → Option Int
  | [] => none
  | r :: rs =>
    if r.Subdomain = subdomain then
      match minLastUpdate subdomain rs with
      | none => some r.LastUpdate
      | some m => some (min r.LastUpdate m)
    else minLastUpdate subdomain rs

/-- Position of the first row satisfying `p`. -/
def findRowid (p : TxtRow → Bool) : List TxtRow → Option Nat
  | [] => none
  | r :: rs => if p r then some 0 else (findRowid p rs).map (· + 1)

/-- The subquery of `Update`:
`SELECT rowid FROM txt WHERE Subdomain=$3 ORDER BY LastUpdate LIMIT 1`.
Among rows with equal `LastUpdate` the sort keeps storage order, so the row
returned is the first row of the subdomain carrying the smallest `LastUpdate`;
no row when the subdomain has none. -/
def selectOldestRowid (txt : List TxtRow) (subdomain : String) : Option Nat :=
  match minLastUpdate subdomain txt with
  | none => none
  | some m => findRowid (fun r => decide (r.Subdomain = subdomain ∧ r.LastUpdate = m)) txt

/-- Rewrite of the row at position `rowid`; no row is touched when there is none. -/
def updateRowid (f : TxtRow → TxtRow) : List TxtRow → Nat → List TxtRow
  | [], _ => []
  | r :: rs, 0 => f r :: rs
  | r :: rs, n + 1 => r :: updateRowid f rs n

/-- The statement of `Update` on table `txt`:
`UPDATE txt SET Value=$1, LastUpdate=$2 WHERE rowid=(SELECT rowid ...)`. -/
def updateTxt (txt : List TxtRow) (value : String) (timenow : Int) (subdomain : String) :
    List TxtRow :=
  match selectOldestRowid txt subdomain with
  | none => txt
  | some i => updateRowid (fun r => { r with Value := value, LastUpdate := timenow }) txt i

/-- Outcome of the two database calls of `Update` (`true`: the call returns an error). -/
structure UpdateFaults where
  prepare : Bool
  exec : Bool
deriving DecidableEq, Repr

/-- No call fails. -/
def UpdateFaults.none : UpdateFaults := ⟨false, false⟩

/-- Method `Update` of `db.go`; `timenow` is the reading of `time.Now().Unix()`. -/
def Update (db : DBState) (a : ACMETxtPost) (timenow : Int) (f : UpdateFaults) :
    DBState × Option Error :=
  if f.prepare then (db, some "prepare")
  else if f.exec then (db, some "exec")
  else ({ db with txt := updateTxt db.txt a.Value timenow a.Subdomain }, none)

/-- Outcome of the database calls of `GetTXTForDomain`. -/
structure QueryFaults where
  prepare : Bool
  query : Bool
deriving DecidableEq, Repr

/-- No call fails. -/
def QueryFaults.none : QueryFaults := ⟨false, false⟩

/-- Method `GetTXTForDomain` of `db.go`:
`SELECT Value FROM txt WHERE Subdomain=$1 LIMIT 2` on the sanitized domain, the
rows in storage order.  `sanitizeString` is defined outside the files at hand and
is a parameter.  Column `Value` is `TEXT NOT NULL`, so scanning it into a string
does not fail. -/
def GetTXTForDomain (sanitizeString : String → String) (db : DBState) (domain : String)
    (f : QueryFaults) : List String × Option Error :=
  let domain := sanitizeString domain
  if f.prepare then ([], some "prepare")
  else if f.query then ([], some "query")
  else ((((db.txt.filter (fun r => decide (r.Subdomain = domain))).take 2).map
    (fun r => r.Value)), none)

/-- Rewrite of the first row satisfying `p`: what `updateRowid` does at `findRowid p`. -/
def rewriteFirst (p : TxtRow → Bool) (f : TxtRow → TxtRow) : List TxtRow → List TxtRow
  | [] => []
  | r :: rs => if p r then f r :: rs else r :: rewriteFirst p f rs

/-- State after successive `Update` calls on `subdomain`, none of which fails; each
write is the value with the clock reading of its call. -/
def runUpdates (db : DBState) (subdomain : String) : List (String × Int) → DBState
  | [] => db
  | w :: ws => runUpdates (Update db ⟨subdomain, w.1⟩ w.2 UpdateFaults.none).1 subdomain ws

/-- The two rows `NewTXTValuesInTransaction` inserts for a subdomain. -/
def freshRows (subdomain : String) : List TxtRow :=
  [⟨subdomain, "", 0⟩, ⟨subdomain, "", 0⟩]

/-! ## Dialect adapter -/

/-- Replacement of every leftmost non-overlapping match of the regular expression
`\$[0-9]` (a dollar sign followed by one ASCII digit) by `?`. -/
def replacePlaceholders : List Char → List Char
  | [] => []
  | [c] => [c]
  | c :: d :: rest =>
    if c = '$' ∧ d.isDigit then '?' :: replacePlaceholders rest
    else c :: replacePlaceholders (d :: rest)

/-- Function `getSQLiteStmt` of `db.go`: `re.ReplaceAllString(s, "?")` for the
pattern `\$[0-9]`. -/
def getSQLiteStmt (s : String) : String :=
  String.mk (replacePlaceholders s.toList)

/-- A statement written for PostgreSQL: text segments joined by the placeholders
`$1`, `$2`, ... numbered from `k`; the first segment comes before `$k`. -/
def pgStmt : Nat → List String → String
  | _, [] => ""
  | _, [seg] => seg
  | k, seg :: segs => seg ++ "$" ++ toString k ++ pgStmt (k + 1) segs

/-- The same segments joined by one `?` per placeholder. -/
def sqliteStmt : List String → String
  | [] => ""
  | [seg] => seg
  | seg :: segs => seg ++ "?" ++ sqliteStmt segs

/-! ## Allow-list -/

/-- Modelled from the spec: method `isValid` of `cidrslice`, which the files at hand
call but do not define.  Section 4.5: every entry is parsed as a network prefix
and a malformed entry is an error.  `validCIDR` says whether an entry parses. -/
def isValid (validCIDR : String → Bool) (c : List String) : Option Error :=
  match c.find? (fun e => !validCIDR e) with
  | some e => some ("invalid CIDR address: " ++ e)
  | none => none

/-- Modelled from the spec: method `ValidEntries` of `cidrslice`, which the files at
hand call but do not define.  Section 4.5: only the entries that parsed
successfully are returned. -/
def ValidEntries (validCIDR : String → Bool) (c : List String) : List String :=
  c.filter validCIDR

/-! ## Accounts: registration -/

/-- Outcome of the two `tx.Exec` calls of `NewTXTValuesInTransaction`. -/
structure TxtInsertFaults where
  first : Bool
  second : Bool
deriving DecidableEq, Repr

/-- No call fails. -/
def TxtInsertFaults.none : TxtInsertFaults := ⟨false, false⟩

/-- The quote character of SQL string literals. -/
def sqlQuote : Char := Char.ofNat 39

/-- The value of the string literal that opens at the quote of `values('%s', 0)` when
the characters `cs` are spliced in for `%s`: two quotes in a row stand for one
quote character, and a quote on its own closes the literal before the end of the
spliced text (`none`), which makes the statement another statement. -/
def sqlLiteral : List Char → Option (List Char)
  | [] => some []
  | [c] => if c = sqlQuote then none else some [c]
  | c :: d :: rest =>
    if c = sqlQuote then
      if d = sqlQuote then (sqlLiteral rest).map (fun l => sqlQuote :: l) else none
    else (sqlLiteral (d :: rest)).map (fun l => c :: l)

/-- The subdomain as the statement of `NewTXTValuesInTransaction` reads it. -/
def splicedLiteral (subdomain : String) : Option String :=
  (sqlLiteral subdomain.toList).map String.mk

/-- A subdomain without a quote character. -/
def plainSubdomain (subdomain : String) : Bool :=
  subdomain.toList.all (fun c => decide (c ≠ sqlQuote))

/-- One `tx.Exec("INSERT INTO txt (Subdomain, LastUpdate) values('%s', 0)")`: the
row is appended with the column default `''` as value; a failing statement
inserts nothing.  The subdomain is spliced into the statement text by
`fmt.Sprintf`; the row is stored here under the subdomain itself, which is what
the statement does for a subdomain without a quote character
(`splicedLiteral_plain`).  A subdomain with quote characters is stored by the
code under `splicedLiteral`, or makes another statement; the theorems on
subdomains read from the database assume `plainSubdomain`. -/
def execInsertTxt (tx : DBState) (subdomain : String) (fails : Bool) :
    DBState × Option Error :=
  if fails then (tx, some "insert txt")
  else ({ tx with txt := tx.txt ++ [⟨subdomain, "", 0⟩] }, none)

/-- Method `NewTXTValuesInTransaction` of `db.go`: the results of both `tx.Exec` calls
are dropped and the variable `err`, never assigned, is returned. -/
def NewTXTValuesInTransaction (tx : DBState) (subdomain : String) (f : TxtInsertFaults) :
    DBState × Option Error :=
  let err : Option Error := none
  let tx := (execInsertTxt tx subdomain f.first).1
  let tx := (execInsertTxt tx subdomain f.second).1
  (tx, err)

/-- The `UNIQUE` constraints of table `records`: a new row is refused when its
`Username`, `Password` or `Subdomain` is already there. -/
def violatesUnique (rows : List RecordRow) (row : RecordRow) : Bool :=
  rows.any (fun r => decide (r.Username = row.Username)
    || decide (r.Password = row.Password) || decide (r.Subdomain = row.Subdomain))

/-- The `INSERT INTO records` statement: it fails on request or when one of the
`UNIQUE` columns `Username`, `Password`, `Subdomain` already holds the new value. -/
def execInsertRecord (tx : DBState) (row : RecordRow) (fails : Bool) :
    DBState × Option Error :=
  if fails then (tx, some "insert records")
  else if violatesUnique tx.records row then (tx, some "UNIQUE constraint failed")
  else ({ tx with records := tx.records ++ [row] }, none)

/-- The deferred function of a transaction: `Rollback` when `err` is set, `Commit`
otherwise.  `db` is the committed state, `tx` the state inside the transaction. -/
def endTx (db tx : DBState) (err : Option Error) : DBState :=
  match err with
  | some _ => db
  | none => tx

/-- What `RegisterWithName` reads from its environment: the account `newACMETxt()`
generates, the two clock readings and the bcrypt hash of the password. -/
structure RegisterEnv where
  newACMETxt : ACMETxt
  createdAt : Int
  updatedAt : Int
  passwordHash : String
deriving DecidableEq, Repr

/-- Outcome of the database calls of `RegisterWithName`. -/
structure RegisterFaults where
  prepare : Bool
  insertRecord : Bool
  txt : TxtInsertFaults
deriving DecidableEq, Repr

/-- No call fails. -/
def RegisterFaults.none : RegisterFaults := ⟨false, false, TxtInsertFaults.none⟩

/-- The account `RegisterWithName` builds before it touches the database. -/
def newAccount (validCIDR : String → Bool) (afrom : List String) (domainName : String)
    (env : RegisterEnv) : ACMETxt :=
  { env.newACMETxt with
    AllowFrom := ValidEntries validCIDR afrom
    DomainName := domainName
    CreatedAt := env.createdAt
    UpdatedAt := env.updatedAt }

/-- The row `RegisterWithName` inserts for an account. -/
def recordOf (a : ACMETxt) (passwordHash : String) : RecordRow :=
  ⟨a.Username, passwordHash, a.Subdomain, a.AllowFrom, a.DomainName, a.CreatedAt, a.UpdatedAt⟩

/-- Method `RegisterWithName` of `db.go`.  `DB.Begin` is taken to succeed (its error
is not checked by the code).  The result is the committed state, the account and
the returned error. -/
def RegisterWithName (validCIDR : String → Bool) (db : DBState) (afrom : List String)
    (domainName : String) (env : RegisterEnv) (f : RegisterFaults) :
    DBState × ACMETxt × Option Error :=
  let tx := db
  let a := newAccount validCIDR afrom domainName env
  if f.prepare then
    (endTx db tx (some "prepare"), a, some "SQL error")
  else
    let (tx, err) := execInsertRecord tx (recordOf a env.passwordHash) f.insertRecord
    let (tx, err) :=
      match err with
      | none => NewTXTValuesInTransaction tx a.Subdomain f.txt
      | some e => (tx, some e)
    (endTx db tx err, a, err)

/-- Method `Register` of `db.go`. -/
def Register (validCIDR : String → Bool) (db : DBState) (afrom : List String)
    (env : RegisterEnv) (f : RegisterFaults) : DBState × ACMETxt × Option Error :=
  RegisterWithName validCIDR db afrom "" env f

/-! ## Accounts: label update and listing -/

/-- Method `UpdateDomainName` of `db.go`:
`UPDATE records SET DomainName = $1, UpdatedAt = $2 WHERE Subdomain = $3`. -/
def UpdateDomainName (db : DBState) (subdomain domainName : String) (timenow : Int)
    (execFails : Bool) : DBState × Option Error :=
  if execFails then (db, some "exec")
  else
    ({ db with records := db.records.map (fun r =>
        if r.Subdomain = subdomain then { r with DomainName := domainName, UpdatedAt := timenow }
        else r) }, none)

/-- One turn of the loop of `GetAllDomains` on a scanned row: the columns are copied,
the password hash is cleared and the full domain is added. -/
def scanDomain (domain : String) (r : RecordRow) : ACMETxt :=
  let txt : ACMETxt :=
    { Username := r.Username, Password := r.Password, Subdomain := r.Subdomain, Value := "",
      AllowFrom := r.AllowFrom, DomainName := r.DomainName, Fulldomain := "",
      CreatedAt := r.CreatedAt, UpdatedAt := r.UpdatedAt }
  let txt := { txt with Password := "" }
  { txt with Fulldomain := txt.Subdomain ++ "." ++ domain }

/-- The loop of `GetAllDomains` over the rows `rows.Next` delivers: a row whose `Scan`
fails ends it with the records gathered so far and the error; when `rows.Next`
returns false the loop ends with no error. -/
def scanAllDomains (domain : String) (scanFails : RecordRow → Bool) :
    List RecordRow → List ACMETxt → List ACMETxt × Option Error
  | [], results => (results, none)
  | r :: rs, results =>
    if scanFails r then (results, some "scan")
    else scanAllDomains domain scanFails rs (results ++ [scanDomain domain r])

/-- The rows `rows.Next` delivers before it returns false: all of the table when the
iteration runs to its end (`none`), the first `n` when it fails after `n` rows
(`some n`); the failure is kept for `rows.Err()`. -/
def deliveredRows (rows : List RecordRow) (nextFails : Option Nat) : List RecordRow :=
  match nextFails with
  | none => rows
  | some n => rows.take n

/-- Method `GetAllDomains` of `db.go`; `domain` is `Config.General.Domain`.  The
method does not read `rows.Err()`: after the loop it returns the records with a
nil error, also when `rows.Next` failed. -/
def GetAllDomains (domain : String) (db : DBState) (queryFails : Bool)
    (scanFails : RecordRow → Bool) (nextFails : Option Nat) : List ACMETxt × Option Error :=
  if queryFails then ([], some "query")
  else scanAllDomains domain scanFails (deliveredRows db.records nextFails) []

/-! ## Registration handler -/

/-- Struct `RegisterRequest` of `webRegisterPost`: the decoded request body (the zero
value when the body is empty or does not decode). -/
structure RegisterRequest where
  DomainName : String
  AllowFrom : List String
deriving DecidableEq, Repr

/-- Struct `RegResponse` of `api.go`. -/
structure RegResponse where
  Username : String
  Password : String
  Fulldomain : String
  Subdomain : String
  Allowfrom : List String
deriving DecidableEq, Repr

/-- Body of a response: the output of `jsonError` on a message, or a marshalled
registration. -/
inductive Body where
  | jsonError (msg : String)
  | registered (reg : RegResponse)
deriving DecidableEq, Repr

/-- Status code and body written by a handler. -/
structure Response where
  status : Nat
  body : Body
deriving DecidableEq, Repr

/-- Handler `webRegisterPost` of `api.go`.  The store is reached only through
`register`, the method `DB.RegisterWithName`, run on the store state `st`;
`domain` is `Config.General.Domain`. -/
def webRegisterPost {σ : Type} (validCIDR : String → Bool) (domain : String)
    (register : List String → String → σ → σ × ACMETxt × Option Error)
    (reqData : RegisterRequest) (marshalFails : Bool) (st : σ) : σ × Response :=
  let allowFrom : List String := if reqData.AllowFrom.length > 0 then reqData.AllowFrom else []
  if reqData.AllowFrom.length > 0 ∧ (isValid validCIDR reqData.AllowFrom).isSome then
    (st, ⟨400, Body.jsonError "invalid_allowfrom_cidr"⟩)
  else
    let (st, nu, err) := register allowFrom reqData.DomainName st
    match err with
    | some e => (st, ⟨500, Body.jsonError e⟩)
    | none =>
      if marshalFails then (st, ⟨500, Body.jsonError "json_error"⟩)
      else (st, ⟨201, Body.registered ⟨nu.Username, nu.Password, nu.Subdomain ++ "." ++ domain,
        nu.Subdomain, ValidEntries validCIDR nu.AllowFrom⟩⟩)

/-! ## Schema migration -/

/-- Function `strconv.Atoi` on a 64-bit platform: an optional sign followed by at
least one ASCII digit, within the range of `int`. -/
def Atoi (s : String) : Option Int :=
  let cs := s.toList
  let (neg, ds) : Bool × List Char :=
    match cs with
    | '-' :: r => (true, r)
    | '+' :: r => (false, r)
    | _ => (false, cs)
  if ds.isEmpty || !(ds.all Char.isDigit) then none
  else
    let n : Int := ds.foldl (fun acc c => acc * 10 + ((c.toNat - '0'.toNat : Nat) : Int)) 0
    let v : Int := if neg then -n else n
    if v < -(2 : Int) ^ 63 ∨ (2 : Int) ^ 63 - 1 < v then none else some v

/-- Statement `UPDATE acmedns SET Value='v' WHERE Name='db_version'`. -/
def setVersion (v : String) (rows : List MetaRow) : List MetaRow :=
  rows.map (fun r => if r.Name = "db_version" then { r with Value := v } else r)

/-- Outcome of the database calls of `handleDBUpgradeTo1`; `txt` gives the outcome of
the two inserts made for a subdomain. -/
structure UpgradeTo1Faults where
  query : Bool
  scan : Bool
  rows : Bool
  delete : Bool
  txt : String → TxtInsertFaults
  marker : Bool

/-- No call fails. -/
def UpgradeTo1Faults.none : UpgradeTo1Faults :=
  ⟨false, false, false, false, fun _ => TxtInsertFaults.none, false⟩

/-- The loop of `handleDBUpgradeTo1` over the subdomains read from `records`. -/
def insertSubdomains (txt : String → TxtInsertFaults) :
    DBState → List String → DBState × Option Error
  | tx, [] => (tx, none)
  | tx, subdomain :: rest =>
    if subdomain ≠ "" then
      match NewTXTValuesInTransaction tx subdomain (txt subdomain) with
      | (tx, some e) => (tx, some e)
      | (tx, none) => insertSubdomains txt tx rest
    else insertSubdomains txt tx rest

/-- Method `handleDBUpgradeTo1` of `db.go`.  `DB.Begin` is taken to succeed (its error
is not checked by the code).  The legacy columns `Value` and `LastActive` of
`records` are not part of `RecordRow`, so dropping them leaves the state as it is. -/
def handleDBUpgradeTo1 (db : DBState) (f : UpgradeTo1Faults) : DBState × Option Error :=
  if f.query then (db, some "query")
  else if f.scan then (db, some "scan")
  else if f.rows then (db, some "rows")
  else
    let subdomains := db.records.map (fun r => r.Subdomain)
    let tx := db
    let tx := if f.delete then tx else { tx with txt := [] }
    match insertSubdomains f.txt tx subdomains with
    | (tx, some e) => (endTx db tx (some e), some e)
    | (tx, none) =>
      if f.marker then (endTx db tx (some "update"), some "update")
      else (endTx db { tx with acmedns := setVersion "1" tx.acmedns } none, none)

/-- Outcome of the database calls of `handleDBUpgradeTo2`; `alter` says that one of
the three `ALTER TABLE` statements fails with an error other than a duplicate
column. -/
structure UpgradeTo2Faults where
  begin : Bool
  alter : Bool
  marker : Bool
deriving DecidableEq, Repr

/-- No call fails. -/
def UpgradeTo2Faults.none : UpgradeTo2Faults := ⟨false, false, false⟩

/-- Method `handleDBUpgradeTo2` of `db.go`.  The columns it adds are part of
`RecordRow` from the start, so on the state only the version marker changes. -/
def handleDBUpgradeTo2 (db : DBState) (f : UpgradeTo2Faults) : DBState × Option Error :=
  if f.begin then (db, some "begin")
  else
    let tx := db
    if f.alter then (endTx db tx (some "alter"), some "alter")
    else if f.marker then (endTx db tx (some "update"), some "update")
    else (endTx db { tx with acmedns := setVersion "2" tx.acmedns } none, none)

/-- Outcome of the database calls of the two upgrade steps. -/
structure UpgradeFaults where
  to1 : UpgradeTo1Faults
  to2 : UpgradeTo2Faults

/-- No call fails. -/
def UpgradeFaults.none : UpgradeFaults := ⟨UpgradeTo1Faults.none, UpgradeTo2Faults.none⟩

/-- Method `handleDBUpgrades` of `db.go`. -/
def handleDBUpgrades (db : DBState) (version : Int) (f : UpgradeFaults) :
    DBState × Option Error :=
  let step1 : DBState × Int × Option Error :=
    if version = 0 then
      match handleDBUpgradeTo1 db f.to1 with
      | (db, some e) => (db, version, some e)
      | (db, none) => (db, 1, none)
    else (db, version, none)
  match step1 with
  | (db, _, some e) => (db, some e)
  | (db, version, none) =>
    if version = 1 then handleDBUpgradeTo2 db f.to2
    else (db, none)

/-- Method `checkDBUpgrades` of `db.go`. -/
def checkDBUpgrades (db : DBState) (versionString : String) (f : UpgradeFaults) :
    DBState × Option Error :=
  match Atoi versionString with
  | none => (db, some ("strconv.Atoi: parsing " ++ versionString ++ ": invalid syntax"))
  | some version =>
    if version ≠ DBVersion then handleDBUpgrades db version f
    else (db, none)

/-- Outcome of the database calls of `Init`. -/
structure InitFaults where
  open_ : Bool
  upgrade : UpgradeFaults
  insertVersion : Bool

/-- No call fails. -/
def InitFaults.none : InitFaults := ⟨false, UpgradeFaults.none, false⟩

/-- Query `SELECT Value FROM acmedns WHERE Name='db_version'` of `Init`, scanned into
a variable that starts empty and stays empty when no row is found. -/
def readVersionString (db : DBState) : String :=
  match db.acmedns.find? (fun r => decide (r.Name = "db_version")) with
  | some r => r.Value
  | none => ""

/-- Method `Init` of `db.go`.  The three `CREATE TABLE IF NOT EXISTS` statements leave
the tables of the state as they are. -/
def Init (db : DBState) (f : InitFaults) : DBState × Option Error :=
  if f.open_ then (db, some "open")
  else
    let versionString := readVersionString db
    let versionString := if versionString = "" then "0" else versionString
    match checkDBUpgrades db versionString f.upgrade with
    | (db, some e) => (db, some e)
    | (db, none) =>
      if versionString = "0" then
        if f.insertVersion then (db, some "insert")
        else ({ db with acmedns := db.acmedns ++ [⟨"db_version", toString DBVersion⟩] }, none)
      else (db, none)

/-! ## Store invariant -/

/-- Every subdomain in the account table has exactly two rows in the challenge table. -/
def TwoRowsPerSubdomain (db : DBState) : Prop :=
  ∀ r ∈ db.records, (db.txt.filter (fun t => decide (t.Subdomain = r.Subdomain))).length = 2

/-- Every challenge row belongs to a subdomain of the account table. -/
def NoOrphanRows (db : DBState) : Prop :=
  ∀ t ∈ db.txt, t.Subdomain ∈ db.records.map (fun r => r.Subdomain)

/-- The states the store reaches from `db0` by `RegisterWithName`, `Update` and
`UpdateDomainName`.  A registration counts when it returned no error and both of
its inserts into `txt` succeeded; `Update` and `UpdateDomainName` leave the state
as it is when their statement fails. -/
inductive Reachable (validCIDR : String → Bool) (db0 : DBState) : DBState → Prop where
  | init : Reachable validCIDR db0 db0
  | register (db : DBState) (afrom : List String) (domainName : String) (env : RegisterEnv)
      (f : RegisterFaults) (db' : DBState) (a : ACMETxt) :
      Reachable validCIDR db0 db → f.txt = TxtInsertFaults.none →
      RegisterWithName validCIDR db afrom domainName env f = (db', a, none) →
      Reachable validCIDR db0 db'
  | update (db : DBState) (a : ACMETxtPost) (timenow : Int) (f : UpdateFaults) :
      Reachable validCIDR db0 db → Reachable validCIDR db0 (Update db a timenow f).1
  | updateDomainName (db : DBState) (subdomain domainName : String) (timenow : Int)
      (execFails : Bool) :
      Reachable validCIDR db0 db →
      Reachable validCIDR db0 (UpdateDomainName db subdomain domainName timenow execFails).1

/-- The rows the loop of `handleDBUpgradeTo1` inserts for a list of subdomains when
every insert succeeds. -/
def upgradedTxt : List String → List TxtRow
  | [] => []
  | subdomain :: rest =>
    if subdomain ≠ "" then freshRows subdomain ++ upgradedTxt rest else upgradedTxt rest

/-- What `UpdateDomainName` on `subdomain` may change between an account row and the
row at its place afterwards: nothing but `DomainName` and `UpdatedAt`, and those
only on a row of `subdomain`. -/
def LabelFrame (subdomain : String) (r r' : RecordRow) : Prop :=
  r'.Username = r.Username ∧ r'.Password = r.Password ∧ r'.Subdomain = r.Subdomain
  ∧ r'.AllowFrom = r.AllowFrom ∧ r'.CreatedAt = r.CreatedAt
  ∧ (r.Subdomain ≠ subdomain → r' = r)

/-! ## Label-update handler -/

/-- Go `len` of a string: the number of bytes of the UTF-8 encoding of its characters. -/
def byteLen : List Char → Nat
  | [] => 0
  | c :: cs => c.utf8Size + byteLen cs

/-- Go slice `s[:n]` on the characters of a string: the characters whose encoding
lies within the first `n` bytes.  When byte `n` falls inside a character the Go
slice ends with the leading bytes of that character, which are no character;
they are left out here. -/
def bytePrefix : List Char → Nat → List Char
  | [], _ => []
  | c :: cs, n => if c.utf8Size ≤ n then c :: bytePrefix cs (n - c.utf8Size) else []

/-- Go `len(s)`. -/
def goLen (s : String) : Nat := byteLen s.toList

/-- Go `s[:n]`. -/
def goSliceTo (s : String) (n : Nat) : String := String.mk (bytePrefix s.toList n)

/-- Struct `UpdateNameRequest` of `updatename.go`. -/
structure UpdateNameRequest where
  FullDomain : String
  DomainName : String
deriving DecidableEq, Repr

/-- Body written by `webUpdateName`: the output of `jsonError` on a message, or the
success map with its `fulldomain` and `domain_name`. -/
inductive UpdateNameBody where
  | jsonError (msg : String)
  | success (fulldomain : String) (domainName : String)
deriving DecidableEq, Repr

/-- Status code and body written by `webUpdateName`. -/
structure UpdateNameResponse where
  status : Nat
  body : UpdateNameBody
deriving DecidableEq, Repr

/-- The subdomain `webUpdateName` extracts from a full domain: the variable
`subdomain` after the `if` that removes the base domain and the dot before it.
`domain` is `Config.General.Domain`. -/
def extractSubdomain (domain fullDomain : String) : String :=
  let subdomain := ""
  if goLen fullDomain > goLen domain + 1 then
    goSliceTo fullDomain (goLen fullDomain - goLen domain - 1)
  else subdomain

/-- Handler `webUpdateName` of `updatename.go`.  `req` is the decoded body, `none` when
decoding fails; the store is reached only through `updateDomainName`, the method
`DB.UpdateDomainName`, run on the store state `st`. -/
def webUpdateName {σ : Type} (domain : String)
    (updateDomainName : String → String → σ → σ × Option Error)
    (req : Option UpdateNameRequest) (st : σ) : σ × UpdateNameResponse :=
  match req with
  | none => (st, ⟨400, UpdateNameBody.jsonError "invalid_request"⟩)
  | some req =>
    if req.FullDomain = "" then (st, ⟨400, UpdateNameBody.jsonError "missing_fulldomain"⟩)
    else
      let subdomain := extractSubdomain domain req.FullDomain
      if subdomain = "" then (st, ⟨400, UpdateNameBody.jsonError "invalid_fulldomain"⟩)
      else
        match updateDomainName subdomain req.DomainName st with
        | (st, some _) => (st, ⟨500, UpdateNameBody.jsonError "db_error"⟩)
        | (st, none) => (st, ⟨200, UpdateNameBody.success req.FullDomain req.DomainName⟩)

end AcmeDns

/-! ## Theorems -/

namespace AcmeDns

/-! ### Slot rotation -/

theorem updateRowid_findRowid (p : TxtRow → Bool) (f : TxtRow → TxtRow) (t : List TxtRow) :
    (match findRowid p t with
      | none => t
      | some i => updateRowid f t i) = rewriteFirst p f t := by
  induction t with
  | nil => simp [findRowid, rewriteFirst]
  | cons r rs ih =>
    by_cases h : p r = true
    · simp [findRowid, rewriteFirst, h, updateRowid]
    · simp only [findRowid, rewriteFirst, h]
      cases hq : findRowid p rs with
      | none =>
        rw [hq] at ih
        simp [← ih]
      | some i =>
        rw [hq] at ih
        simp [updateRowid, ← ih]

theorem filter_rewriteFirst (s : String) (p : TxtRow → Bool) (f : TxtRow → TxtRow)
    (hp : ∀ r, p r = true → r.Subdomain = s) (hf : ∀ r, (f r).Subdomain = r.Subdomain)
    (t : List TxtRow) :
    (rewriteFirst p f t).filter (fun r => decide (r.Subdomain = s))
      = rewriteFirst p f (t.filter (fun r => decide (r.Subdomain = s))) := by
  induction t with
  | nil => rfl
  | cons r rs ih =>
    by_cases h : p r = true
    · have hs : r.Subdomain = s := hp r h
      simp [rewriteFirst, h, List.filter_cons, hs, hf]
    · by_cases hs : r.Subdomain = s
      · simp [rewriteFirst, h, List.filter_cons, hs, ih]
      · simp [rewriteFirst, h, List.filter_cons, hs, ih]

theorem minLastUpdate_filter (s : String) (t : List TxtRow) :
    minLastUpdate s (t.filter (fun r => decide (r.Subdomain = s))) = minLastUpdate s t := by
  induction t with
  | nil => rfl
  | cons r rs ih =>
    by_cases hs : r.Subdomain = s
    · simp [minLastUpdate, List.filter_cons, hs, ih]
    · simp [minLastUpdate, List.filter_cons, hs, ih]

theorem updateTxt_eq_rewriteFirst (t : List TxtRow) (v : String) (now : Int) (s : String) :
    updateTxt t v now s =
      match minLastUpdate s t with
      | none => t
      | some m => rewriteFirst (fun r => decide (r.Subdomain = s ∧ r.LastUpdate = m))
          (fun r => { r with Value := v, LastUpdate := now }) t := by
  unfold updateTxt selectOldestRowid
  cases hm : minLastUpdate s t with
  | none => rfl
  | some m =>
    simp only
    exact updateRowid_findRowid _ _ t

theorem filter_updateTxt (t : List TxtRow) (v : String) (now : Int) (s : String) :
    (updateTxt t v now s).filter (fun r => decide (r.Subdomain = s))
      = updateTxt (t.filter (fun r => decide (r.Subdomain = s))) v now s := by
  rw [updateTxt_eq_rewriteFirst, updateTxt_eq_rewriteFirst, minLastUpdate_filter]
  cases hm : minLastUpdate s t with
  | none => rfl
  | some m =>
    simp only
    apply filter_rewriteFirst
    · intro r hr
      simp at hr
      exact hr.1
    · intro r
      rfl

theorem updateTxt_pair (x y : TxtRow) (v : String) (now : Int) (s : String)
    (hx : x.Subdomain = s) (hy : y.Subdomain = s) :
    updateTxt [x, y] v now s =
      if x.LastUpdate ≤ y.LastUpdate then [⟨s, v, now⟩, y] else [x, ⟨s, v, now⟩] := by
  rw [updateTxt_eq_rewriteFirst]
  by_cases h : x.LastUpdate ≤ y.LastUpdate
  · simp [minLastUpdate, hx, hy, rewriteFirst, h]
  · have h1 : y.LastUpdate < x.LastUpdate := not_le.mp h
    have h2 : ¬ x.LastUpdate = y.LastUpdate := by omega
    simp [minLastUpdate, hx, hy, rewriteFirst, h, h1.le, h2]

theorem subdomain_of_filter_pair (t : List TxtRow) (s : String) (x y : TxtRow)
    (h : t.filter (fun r => decide (r.Subdomain = s)) = [x, y]) :
    x.Subdomain = s ∧ y.Subdomain = s := by
  have hx : x ∈ t.filter (fun r => decide (r.Subdomain = s)) := by rw [h]; simp
  have hy : y ∈ t.filter (fun r => decide (r.Subdomain = s)) := by rw [h]; simp
  exact ⟨by simpa using (List.mem_filter.mp hx).2, by simpa using (List.mem_filter.mp hy).2⟩

/-- One `Update` on a subdomain holding two rows rewrites the first row when its
`LastUpdate` is not the larger one and the second row otherwise. -/
theorem filter_Update_pair (db : DBState) (s v : String) (now : Int) (x y : TxtRow)
    (h : db.txt.filter (fun r => decide (r.Subdomain = s)) = [x, y]) :
    (Update db ⟨s, v⟩ now UpdateFaults.none).1.txt.filter (fun r => decide (r.Subdomain = s))
      = if x.LastUpdate ≤ y.LastUpdate then [⟨s, v, now⟩, y] else [x, ⟨s, v, now⟩] := by
  obtain ⟨hx, hy⟩ := subdomain_of_filter_pair db.txt s x y h
  simp only [Update, UpdateFaults.none, Bool.false_eq_true, if_false]
  rw [filter_updateTxt, h, updateTxt_pair x y v now s hx hy]

/-- Two rows, both last written before `B`, stay two rows last written before `B`
under updates made before `B`. -/
theorem runUpdates_two_rows (s : String) (B : Int) (ws : List (String × Int)) :
    ∀ db : DBState,
      (∃ x y, db.txt.filter (fun r => decide (r.Subdomain = s)) = [x, y]
        ∧ x.LastUpdate < B ∧ y.LastUpdate < B) →
      (∀ w ∈ ws, w.2 < B) →
      ∃ x y, (runUpdates db s ws).txt.filter (fun r => decide (r.Subdomain = s)) = [x, y]
        ∧ x.LastUpdate < B ∧ y.LastUpdate < B := by
  induction ws with
  | nil => intro db h _; exact h
  | cons w ws ih =>
    intro db h hw
    obtain ⟨x, y, hxy, hx, hy⟩ := h
    have hnow : w.2 < B := hw w (List.mem_cons_self _ _)
    simp only [runUpdates]
    apply ih
    · have hstep := filter_Update_pair db s w.1 w.2 x y hxy
      by_cases hle : x.LastUpdate ≤ y.LastUpdate
      · rw [if_pos hle] at hstep
        exact ⟨_, _, hstep, hnow, hy⟩
      · rw [if_neg hle] at hstep
        exact ⟨_, _, hstep, hx, hnow⟩
    · intro w' hw'
      exact hw w' (List.mem_cons_of_mem _ hw')

theorem runUpdates_append (s : String) (ws ws' : List (String × Int)) :
    ∀ db : DBState, runUpdates db s (ws ++ ws') = runUpdates (runUpdates db s ws) s ws' := by
  induction ws with
  | nil => intro db; rfl
  | cons w ws ih =>
    intro db
    rw [List.cons_append]
    simp only [runUpdates]
    exact ih _

/-- Two updates, the first of them later than the last write of either row, leave
the two written values. -/
theorem last_two_updates (db : DBState) (s v1 v2 : String) (t1 t2 : Int) (x y : TxtRow)
    (h : db.txt.filter (fun r => decide (r.Subdomain = s)) = [x, y])
    (hx : x.LastUpdate < t1) (hy : y.LastUpdate < t1) :
    (runUpdates db s [(v1, t1), (v2, t2)]).txt.filter (fun r => decide (r.Subdomain = s))
        = [⟨s, v1, t1⟩, ⟨s, v2, t2⟩]
      ∨ (runUpdates db s [(v1, t1), (v2, t2)]).txt.filter (fun r => decide (r.Subdomain = s))
        = [⟨s, v2, t2⟩, ⟨s, v1, t1⟩] := by
  simp only [runUpdates]
  have hstep := filter_Update_pair db s v1 t1 x y h
  by_cases hle : x.LastUpdate ≤ y.LastUpdate
  · rw [if_pos hle] at hstep
    have hstep2 := filter_Update_pair _ s v2 t2 _ _ hstep
    have hn : ¬ (t1 ≤ y.LastUpdate) := by omega
    rw [if_neg hn] at hstep2
    exact Or.inl hstep2
  · rw [if_neg hle] at hstep
    have hstep2 := filter_Update_pair _ s v2 t2 _ _ hstep
    have hn : x.LastUpdate ≤ t1 := by omega
    rw [if_pos hn] at hstep2
    exact Or.inr hstep2

/-- Claim C1 as stated fails: four `Update` calls writing "a", "b", "c", "d" within
the same second (clock reading 100 at each call) on a freshly registered
subdomain leave the values "d" and "b", so `GetTXTForDomain` does not return the
two most recent values "c" and "d".  No tie is needed when the clock steps back:
"a", "b", "c" written at seconds 100, 50, 60 leave "a" and "c", not "b" and "c". -/
theorem c1_same_second_counterexample :
    (GetTXTForDomain id (runUpdates ⟨[], [], freshRows "sub"⟩ "sub"
        [("a", 100), ("b", 100), ("c", 100), ("d", 100)]) "sub" QueryFaults.none
      = (["d", "b"], none)
      ∧ ¬ List.Perm ["d", "b"] ["c", "d"])
    ∧ (GetTXTForDomain id (runUpdates ⟨[], [], freshRows "sub"⟩ "sub"
        [("a", 100), ("b", 50), ("c", 60)]) "sub" QueryFaults.none
      = (["a", "c"], none)
      ∧ ¬ List.Perm ["a", "c"] ["b", "c"]) := by
  decide

/-- Claim C1, amended: when the clock readings of the calls are strictly increasing
and greater than 0, after `N ≥ 2` successive `Update` calls on a freshly
registered subdomain (two rows, empty value, `LastUpdate` 0, anywhere in the
table) `GetTXTForDomain` succeeds and returns exactly the last two written values
in some order.  The subdomain is one that `sanitizeString` leaves unchanged. -/
theorem c1_last_two_values_retrievable (sanitizeString : String → String) (db : DBState)
    (s : String) (writes : List (String × Int))
    (hsan : sanitizeString s = s)
    (hfresh : db.txt.filter (fun r => decide (r.Subdomain = s)) = freshRows s)
    (hN : 2 ≤ writes.length)
    (hclock : (writes.map Prod.snd).Sorted (· < ·))
    (hpos : ∀ w ∈ writes, 0 < w.2) :
    ∃ l, GetTXTForDomain sanitizeString (runUpdates db s writes) s QueryFaults.none = (l, none)
      ∧ l.Perm ((writes.drop (writes.length - 2)).map Prod.fst) := by
  -- split the writes into the earlier ones and the last two
  obtain ⟨pre, w1, w2, hsplit⟩ : ∃ pre w1 w2, writes = pre ++ [w1, w2] := by
    refine ⟨writes.take (writes.length - 2), ?_⟩
    have hd : (writes.drop (writes.length - 2)).length = 2 := by
      rw [List.length_drop]; omega
    match hm : writes.drop (writes.length - 2), hd with
    | [a, b], _ =>
      refine ⟨a, b, ?_⟩
      rw [← hm, List.take_append_drop]
  subst hsplit
  have hdrop : (pre ++ [w1, w2]).drop ((pre ++ [w1, w2]).length - 2) = [w1, w2] := by
    have : (pre ++ [w1, w2]).length - 2 = pre.length := by simp
    rw [this, List.drop_left]
  rw [hdrop]
  -- every earlier call ran before the call writing `w1`
  have hsorted : List.Sorted (· < ·) (pre.map Prod.snd ++ [w1.2, w2.2]) := by
    simpa using hclock
  have hpre : ∀ w ∈ pre, w.2 < w1.2 := by
    intro w hw
    have := (List.pairwise_append.mp hsorted).2.2 w.2 (List.mem_map_of_mem _ hw) w1.2 (by simp)
    exact this
  have h1 : (0 : Int) < w1.2 := hpos w1 (by simp)
  -- two rows, both written before `w1`, after the earlier calls
  obtain ⟨x, y, hxy, hx, hy⟩ := runUpdates_two_rows s w1.2 pre db
    ⟨_, _, hfresh, h1, h1⟩ hpre
  rw [runUpdates_append]
  have hlast := last_two_updates (runUpdates db s pre) s w1.1 w2.1 w1.2 w2.2 x y hxy hx hy
  simp only [GetTXTForDomain, QueryFaults.none, Bool.false_eq_true, if_false, hsan]
  refine ⟨_, rfl, ?_⟩
  rcases hlast with h | h
  · rw [h]; simp
  · rw [h]; simpa using List.Perm.swap _ _ _

/-- Witness for `c1_last_two_values_retrievable`: "v1", "v2", "v3" written at seconds
100, 101, 102 next to the rows of another subdomain. -/
theorem c1_last_two_values_retrievable_witness :
    ∃ l, GetTXTForDomain id
        (runUpdates ⟨[], [], [⟨"other", "x", 7⟩, ⟨"sub", "", 0⟩, ⟨"other", "y", 9⟩, ⟨"sub", "", 0⟩]⟩
          "sub" [("v1", 100), ("v2", 101), ("v3", 102)]) "sub" QueryFaults.none = (l, none)
      ∧ l.Perm ((([("v1", 100), ("v2", 101), ("v3", 102)] : List (String × Int)).drop
          (([("v1", 100), ("v2", 101), ("v3", 102)] : List (String × Int)).length - 2)).map
            Prod.fst) :=
  c1_last_two_values_retrievable id
    ⟨[], [], [⟨"other", "x", 7⟩, ⟨"sub", "", 0⟩, ⟨"other", "y", 9⟩, ⟨"sub", "", 0⟩]⟩ "sub"
    [("v1", 100), ("v2", 101), ("v3", 102)] rfl (by decide) (by decide) (by decide) (by decide)

/-! ### Registration -/

/-- Claim C2, the code at a failing input: when the first insert into `txt` fails (or
both fail) while the insert into `records` succeeded, `RegisterWithName` returns no
error and commits the account row with one challenge row (or with none). -/
theorem c2_register_commits_incomplete_account :
    RegisterWithName (fun _ => true) ⟨[], [], []⟩ [] ""
        ⟨⟨"user", "secret", "sub", "", [], "", "", 0, 0⟩, 100, 100, "hash"⟩
        ⟨false, false, ⟨true, false⟩⟩
      = (⟨[], [⟨"user", "hash", "sub", [], "", 100, 100⟩], [⟨"sub", "", 0⟩]⟩,
         ⟨"user", "secret", "sub", "", [], "", "", 100, 100⟩, none)
    ∧ RegisterWithName (fun _ => true) ⟨[], [], []⟩ [] ""
        ⟨⟨"user", "secret", "sub", "", [], "", "", 0, 0⟩, 100, 100, "hash"⟩
        ⟨false, false, ⟨true, true⟩⟩
      = (⟨[], [⟨"user", "hash", "sub", [], "", 100, 100⟩], []⟩,
         ⟨"user", "secret", "sub", "", [], "", "", 100, 100⟩, none) := by
  decide

theorem isValid_isSome_of_mem (validCIDR : String → Bool) (c : List String) (e : String)
    (he : e ∈ c) (hbad : validCIDR e = false) : (isValid validCIDR c).isSome = true := by
  unfold isValid
  cases hf : c.find? (fun e => !validCIDR e) with
  | some x => rfl
  | none =>
    have := List.find?_eq_none.mp hf e he
    simp [hbad] at this

/-- Claim C4: a registration request whose allow-list contains a malformed entry is
answered 400 with error `invalid_allowfrom_cidr`, whatever the store method
`register` would do: the store state is the one before the request, so
`RegisterWithName` has not run and no account exists that did not before. -/
theorem c4_malformed_allowlist_rejected {σ : Type} (validCIDR : String → Bool)
    (domain : String) (register : List String → String → σ → σ × ACMETxt × Option Error)
    (reqData : RegisterRequest) (marshalFails : Bool) (st : σ) (e : String)
    (he : e ∈ reqData.AllowFrom) (hbad : validCIDR e = false) :
    (isValid validCIDR reqData.AllowFrom).isSome = true
    ∧ webRegisterPost validCIDR domain register reqData marshalFails st
      = (st, ⟨400, Body.jsonError "invalid_allowfrom_cidr"⟩) := by
  have hv := isValid_isSome_of_mem validCIDR reqData.AllowFrom e he hbad
  have hlen : reqData.AllowFrom.length > 0 := List.length_pos_of_mem he
  refine ⟨hv, ?_⟩
  unfold webRegisterPost
  simp only [hv, hlen, and_self, if_true]

/-- Witness for `c4_malformed_allowlist_rejected`: the allow-list
`["10.0.0.0/8", "bad-entry"]` sent to a handler backed by `RegisterWithName` on an
empty store, where only `10.0.0.0/8` parses. -/
theorem c4_malformed_allowlist_rejected_witness :
    (isValid (fun e => e == "10.0.0.0/8") ["10.0.0.0/8", "bad-entry"]).isSome = true
    ∧ webRegisterPost (fun e => e == "10.0.0.0/8") "auth.example.org"
        (fun afrom name db => RegisterWithName (fun e => e == "10.0.0.0/8") db afrom name
          ⟨⟨"user", "secret", "sub", "", [], "", "", 0, 0⟩, 100, 100, "hash"⟩ RegisterFaults.none)
        ⟨"", ["10.0.0.0/8", "bad-entry"]⟩ false (⟨[], [], []⟩ : DBState)
      = (⟨[], [], []⟩, ⟨400, Body.jsonError "invalid_allowfrom_cidr"⟩) :=
  @c4_malformed_allowlist_rejected DBState (fun e => e == "10.0.0.0/8") "auth.example.org"
    (fun afrom name db => RegisterWithName (fun e => e == "10.0.0.0/8") db afrom name
      ⟨⟨"user", "secret", "sub", "", [], "", "", 0, 0⟩, 100, 100, "hash"⟩ RegisterFaults.none)
    ⟨"", ["10.0.0.0/8", "bad-entry"]⟩ false ⟨[], [], []⟩ "bad-entry" (by decide) (by decide)

/-- Claim C5 as stated fails: `RegisterWithName` called with the allow-list
`["10.0.0.0/8", "bad-entry"]`, of which only `10.0.0.0/8` parses, returns no error
and persists the account with the allow-list `["10.0.0.0/8"]`. -/
theorem c5_register_drops_bad_entry_counterexample :
    RegisterWithName (fun e => e == "10.0.0.0/8") ⟨[], [], []⟩ ["10.0.0.0/8", "bad-entry"] ""
        ⟨⟨"user", "secret", "sub", "", [], "", "", 0, 0⟩, 100, 100, "hash"⟩ RegisterFaults.none
      = (⟨[], [⟨"user", "hash", "sub", ["10.0.0.0/8"], "", 100, 100⟩], freshRows "sub"⟩,
         ⟨"user", "secret", "sub", "", ["10.0.0.0/8"], "", "", 100, 100⟩, none) := by
  decide

/-- Claim C5, amended: `RegisterWithName` does not reject an allow-list.  When its
statements succeed and the new row meets the `UNIQUE` constraints, it returns no
error for every allow-list and persists the account with exactly the entries that
parse as network prefixes, in their order, every other entry dropped. -/
theorem c5_register_keeps_valid_entries (validCIDR : String → Bool) (db : DBState)
    (afrom : List String) (domainName : String) (env : RegisterEnv)
    (hfree : violatesUnique db.records
      (recordOf (newAccount validCIDR afrom domainName env) env.passwordHash) = false) :
    ∃ a, RegisterWithName validCIDR db afrom domainName env RegisterFaults.none
        = ({ db with records := db.records ++ [recordOf a env.passwordHash]
                     txt := db.txt ++ freshRows a.Subdomain }, a, none)
      ∧ a.AllowFrom = afrom.filter validCIDR
      ∧ (recordOf a env.passwordHash).AllowFrom = afrom.filter validCIDR := by
  refine ⟨newAccount validCIDR afrom domainName env, ?_, rfl, rfl⟩
  simp [RegisterWithName, RegisterFaults.none, execInsertRecord, hfree,
    NewTXTValuesInTransaction, TxtInsertFaults.none, execInsertTxt, endTx, freshRows]

/-- Witness for `c5_register_keeps_valid_entries`: the allow-list
`["10.0.0.0/8", "bad-entry", "::1/128"]` where the first and the last entry parse. -/
theorem c5_register_keeps_valid_entries_witness :
    ∃ a, RegisterWithName (fun e => e == "10.0.0.0/8" || e == "::1/128") ⟨[], [], []⟩
          ["10.0.0.0/8", "bad-entry", "::1/128"] "label"
          ⟨⟨"user", "secret", "sub", "", [], "", "", 0, 0⟩, 100, 100, "hash"⟩ RegisterFaults.none
        = ({ (⟨[], [], []⟩ : DBState) with
              records := (⟨[], [], []⟩ : DBState).records ++ [recordOf a "hash"]
              txt := (⟨[], [], []⟩ : DBState).txt ++ freshRows a.Subdomain }, a, none)
      ∧ a.AllowFrom = (["10.0.0.0/8", "bad-entry", "::1/128"] : List String).filter
          (fun e => e == "10.0.0.0/8" || e == "::1/128")
      ∧ (recordOf a "hash").AllowFrom = (["10.0.0.0/8", "bad-entry", "::1/128"] : List String).filter
          (fun e => e == "10.0.0.0/8" || e == "::1/128") :=
  c5_register_keeps_valid_entries (fun e => e == "10.0.0.0/8" || e == "::1/128") ⟨[], [], []⟩
    ["10.0.0.0/8", "bad-entry", "::1/128"] "label"
    ⟨⟨"user", "secret", "sub", "", [], "", "", 0, 0⟩, 100, 100, "hash"⟩ (by decide)

/-! ### Dialect adapter -/

/-- Claim C6, the code at a failing input: in a statement with ten parameters the
placeholder `$10` is rewritten to `?0`, not to `?`, so the result differs from the
segments joined by one `?` per placeholder. -/
theorem c6_tenth_placeholder_keeps_digit :
    pgStmt 1 ["values(", ", ", ", ", ", ", ", ", ", ", ", ", ", ", ", ", ", ", ")"]
      = "values($1, $2, $3, $4, $5, $6, $7, $8, $9, $10)"
    ∧ getSQLiteStmt "values($1, $2, $3, $4, $5, $6, $7, $8, $9, $10)"
      = "values(?, ?, ?, ?, ?, ?, ?, ?, ?, ?0)"
    ∧ sqliteStmt ["values(", ", ", ", ", ", ", ", ", ", ", ", ", ", ", ", ", ", ", ")"]
      = "values(?, ?, ?, ?, ?, ?, ?, ?, ?, ?)"
    ∧ getSQLiteStmt (pgStmt 1 ["values(", ", ", ", ", ", ", ", ", ", ", ", ", ", ", ", ", ", ", ")"])
      ≠ sqliteStmt ["values(", ", ", ", ", ", ", ", ", ", ", ", ", ", ", ", ", ", ", ")"] := by
  decide

theorem replacePlaceholders_cons_ne (c : Char) (t : List Char) (h : c ≠ '$') :
    replacePlaceholders (c :: t) = c :: replacePlaceholders t := by
  cases t with
  | nil => simp [replacePlaceholders]
  | cons d t => simp [replacePlaceholders, h]

theorem replacePlaceholders_dollar_digit (d : Char) (t : List Char) (hd : d.isDigit = true) :
    replacePlaceholders ('$' :: d :: t) = '?' :: replacePlaceholders t := by
  simp [replacePlaceholders, hd]

theorem replacePlaceholders_append (l rest : List Char) (h : '$' ∉ l) :
    replacePlaceholders (l ++ rest) = l ++ replacePlaceholders rest := by
  induction l with
  | nil => rfl
  | cons c l ih =>
    have hc : c ≠ '$' := fun he => h (he ▸ List.mem_cons_self _ _)
    have hl : '$' ∉ l := fun hm => h (List.mem_cons_of_mem _ hm)
    rw [List.cons_append, replacePlaceholders_cons_ne _ _ hc, ih hl, List.cons_append]

theorem replacePlaceholders_pgStmt (segs : List String) :
    ∀ k : Nat, (∀ seg ∈ segs, '$' ∉ seg.toList) → k + segs.length ≤ 11 →
      replacePlaceholders (pgStmt k segs).toList = (sqliteStmt segs).toList := by
  induction segs with
  | nil => intro k _ _; rfl
  | cons seg rest ih =>
    intro k hseg hk
    have h1 : '$' ∉ seg.toList := hseg seg (List.mem_cons_self _ _)
    cases rest with
    | nil =>
      have := replacePlaceholders_append seg.toList [] h1
      simpa [pgStmt, sqliteStmt, replacePlaceholders] using this
    | cons seg2 rest2 =>
      have hk9 : k < 10 := by simp at hk; omega
      have hdig : (toString k).toList = [Char.ofNat (48 + k)] := by
        interval_cases k <;> rfl
      have hisd : (Char.ofNat (48 + k)).isDigit = true := by
        interval_cases k <;> rfl
      have hrest := ih (k + 1) (fun x hx => hseg x (List.mem_cons_of_mem _ hx))
        (by simp at hk ⊢; omega)
      have hpg : (pgStmt k (seg :: seg2 :: rest2)).toList
          = seg.toList ++ ('$' :: Char.ofNat (48 + k) :: (pgStmt (k + 1) (seg2 :: rest2)).toList) := by
        simp only [pgStmt, String.toList, String.data_append] at hdig ⊢
        rw [hdig]
        simp
      have hlite : (sqliteStmt (seg :: seg2 :: rest2)).toList
          = seg.toList ++ ('?' :: (sqliteStmt (seg2 :: rest2)).toList) := by
        simp only [sqliteStmt, String.toList, String.data_append]
        simp
      rw [hpg, hlite, replacePlaceholders_append _ _ h1,
        replacePlaceholders_dollar_digit _ _ hisd, hrest]

/-- Where `getSQLiteStmt` is right: a statement whose placeholders all have one digit
(segments free of `$`, placeholders numbered from `k` up to 9 at most) comes out
with one `?` per placeholder and every other character unchanged. -/
theorem getSQLiteStmt_single_digit (segs : List String) (k : Nat)
    (hseg : ∀ seg ∈ segs, '$' ∉ seg.toList) (hk : k + segs.length ≤ 11) :
    getSQLiteStmt (pgStmt k segs) = sqliteStmt segs := by
  unfold getSQLiteStmt
  rw [replacePlaceholders_pgStmt segs k hseg hk]
  rfl

/-! ### Store invariant -/

theorem map_subdomain_rewriteFirst (p : TxtRow → Bool) (f : TxtRow → TxtRow)
    (hf : ∀ r, (f r).Subdomain = r.Subdomain) (t : List TxtRow) :
    (rewriteFirst p f t).map (fun r => r.Subdomain) = t.map (fun r => r.Subdomain) := by
  induction t with
  | nil => rfl
  | cons r rs ih =>
    by_cases h : p r = true
    · simp [rewriteFirst, h, hf]
    · simp [rewriteFirst, h, ih]

theorem map_subdomain_updateTxt (t : List TxtRow) (v : String) (now : Int) (s : String) :
    (updateTxt t v now s).map (fun r => r.Subdomain) = t.map (fun r => r.Subdomain) := by
  rw [updateTxt_eq_rewriteFirst]
  cases minLastUpdate s t with
  | none => rfl
  | some m =>
    exact map_subdomain_rewriteFirst (fun r => decide (r.Subdomain = s ∧ r.LastUpdate = m))
      (fun r => { r with Value := v, LastUpdate := now }) (fun _ => rfl) t

theorem Update_txt_subdomains (db : DBState) (a : ACMETxtPost) (now : Int) (f : UpdateFaults) :
    (Update db a now f).1.txt.map (fun r => r.Subdomain) = db.txt.map (fun r => r.Subdomain) := by
  unfold Update
  by_cases h1 : f.prepare = true
  · simp [h1]
  · by_cases h2 : f.exec = true
    · simp [h1, h2]
    · simp [h1, h2, map_subdomain_updateTxt]

theorem Update_records (db : DBState) (a : ACMETxtPost) (now : Int) (f : UpdateFaults) :
    (Update db a now f).1.records = db.records ∧ (Update db a now f).1.acmedns = db.acmedns := by
  unfold Update
  by_cases h1 : f.prepare = true
  · simp [h1]
  · by_cases h2 : f.exec = true
    · simp [h1, h2]
    · simp [h1, h2]

theorem filter_length_of_map_subdomain (t t' : List TxtRow) (s : String)
    (h : t'.map (fun r => r.Subdomain) = t.map (fun r => r.Subdomain)) :
    (t'.filter (fun r => decide (r.Subdomain = s))).length
      = (t.filter (fun r => decide (r.Subdomain = s))).length := by
  have key : ∀ l : List TxtRow, (l.filter (fun r => decide (r.Subdomain = s))).length
      = ((l.map (fun r => r.Subdomain)).filter (fun x => decide (x = s))).length := by
    intro l
    induction l with
    | nil => rfl
    | cons r rs ih =>
      by_cases hs : r.Subdomain = s
      · simp [List.filter_cons, hs, ih]
      · simp [List.filter_cons, hs, ih]
  rw [key, key, h]

theorem UpdateDomainName_txt (db : DBState) (s n : String) (now : Int) (f : Bool) :
    (UpdateDomainName db s n now f).1.txt = db.txt
    ∧ (UpdateDomainName db s n now f).1.acmedns = db.acmedns := by
  unfold UpdateDomainName
  cases f <;> simp

theorem UpdateDomainName_subdomains (db : DBState) (s n : String) (now : Int) (f : Bool) :
    (UpdateDomainName db s n now f).1.records.map (fun r => r.Subdomain)
      = db.records.map (fun r => r.Subdomain) := by
  unfold UpdateDomainName
  cases f
  · simp only [Bool.false_eq_true, if_false, List.map_map]
    apply List.map_congr_left
    intro r _
    by_cases h : r.Subdomain = s <;> simp [h]
  · simp

/-- A registration that returns no error and whose inserts into `txt` succeeded has
appended the account row and the two fresh challenge rows, and the new subdomain
was in no account row before. -/
theorem RegisterWithName_success (validCIDR : String → Bool) (db : DBState)
    (afrom : List String) (domainName : String) (env : RegisterEnv) (f : RegisterFaults)
    (db' : DBState) (a : ACMETxt) (hf : f.txt = TxtInsertFaults.none)
    (h : RegisterWithName validCIDR db afrom domainName env f = (db', a, none)) :
    a = newAccount validCIDR afrom domainName env
    ∧ violatesUnique db.records (recordOf a env.passwordHash) = false
    ∧ db' = { db with records := db.records ++ [recordOf a env.passwordHash]
                      txt := db.txt ++ freshRows a.Subdomain } := by
  unfold RegisterWithName at h
  by_cases h1 : f.prepare = true
  · simp [h1] at h
  · by_cases h2 : f.insertRecord = true
    · simp [h1, h2, execInsertRecord, endTx] at h
    · by_cases h3 : violatesUnique db.records
          (recordOf (newAccount validCIDR afrom domainName env) env.passwordHash) = true
      · simp [h1, h2, h3, execInsertRecord, endTx] at h
      · simp [h1, h2, h3, execInsertRecord, endTx, NewTXTValuesInTransaction, hf,
          TxtInsertFaults.none, execInsertTxt] at h
        obtain ⟨hdb, ha⟩ := h
        subst ha
        refine ⟨rfl, by simpa using h3, ?_⟩
        rw [← hdb]
        simp [freshRows]

theorem not_mem_subdomains_of_not_violatesUnique (rows : List RecordRow) (row : RecordRow)
    (h : violatesUnique rows row = false) :
    row.Subdomain ∉ rows.map (fun r => r.Subdomain) := by
  intro hmem
  obtain ⟨r, hr, hrs⟩ := List.mem_map.mp hmem
  have : violatesUnique rows row = true := by
    unfold violatesUnique
    rw [List.any_eq_true]
    exact ⟨r, hr, by simp [hrs]⟩
  rw [h] at this
  exact Bool.false_ne_true this

theorem filter_eq_nil_of_no_orphan (db : DBState) (s : String) (ho : NoOrphanRows db)
    (hs : s ∉ db.records.map (fun r => r.Subdomain)) :
    db.txt.filter (fun t => decide (t.Subdomain = s)) = [] := by
  rw [List.filter_eq_nil_iff]
  intro t ht hts
  have h1 : t.Subdomain = s := by simpa using hts
  exact hs (h1 ▸ ho t ht)

/-- The invariant of the store, with the fact that makes it inductive: no challenge
row without an account. -/
theorem storeInv_of_reachable (validCIDR : String → Bool) (db0 db : DBState)
    (h0 : TwoRowsPerSubdomain db0 ∧ NoOrphanRows db0) (hr : Reachable validCIDR db0 db) :
    TwoRowsPerSubdomain db ∧ NoOrphanRows db := by
  induction hr with
  | init => exact h0
  | register db afrom domainName env f db' a _ hf hreg ih =>
    obtain ⟨h2, ho⟩ := ih
    obtain ⟨_, hu, hdb⟩ := RegisterWithName_success validCIDR db afrom domainName env f db' a hf hreg
    have hnew : a.Subdomain ∉ db.records.map (fun r => r.Subdomain) :=
      not_mem_subdomains_of_not_violatesUnique _ _ hu
    have hnil := filter_eq_nil_of_no_orphan db a.Subdomain ho hnew
    subst hdb
    constructor
    · intro r hr
      simp only [List.mem_append, List.mem_singleton] at hr
      rcases hr with hr | hr
      · have hne : a.Subdomain ≠ r.Subdomain := by
          intro he
          exact hnew (he ▸ List.mem_map_of_mem _ hr)
        have := h2 r hr
        simp [List.filter_append, freshRows, List.filter_cons, hne, this]
      · subst hr
        simp only [recordOf, List.filter_append, hnil]
        simp [freshRows, List.filter_cons]
    · intro t ht
      simp only [List.mem_append] at ht
      rcases ht with ht | ht
      · have := ho t ht
        simp only [List.map_append, List.mem_append]
        exact Or.inl this
      · have hts : t.Subdomain = a.Subdomain := by
          simp only [freshRows, List.mem_cons, List.mem_singleton, List.mem_nil_iff,
            or_false, or_self] at ht
          rw [ht]
        simp [hts, recordOf]
  | update db a now f _ ih =>
    obtain ⟨h2, ho⟩ := ih
    have hsub := Update_txt_subdomains db a now f
    have hrec := (Update_records db a now f).1
    constructor
    · intro r hr
      rw [hrec] at hr
      rw [filter_length_of_map_subdomain db.txt _ r.Subdomain hsub]
      exact h2 r hr
    · intro t ht
      rw [hrec]
      have : t.Subdomain ∈ (Update db a now f).1.txt.map (fun r => r.Subdomain) :=
        List.mem_map_of_mem _ ht
      rw [hsub] at this
      obtain ⟨t0, ht0, he⟩ := List.mem_map.mp this
      rw [← he]
      exact ho t0 ht0
  | updateDomainName db s n now f _ ih =>
    obtain ⟨h2, ho⟩ := ih
    have htxt := (UpdateDomainName_txt db s n now f).1
    have hsub := UpdateDomainName_subdomains db s n now f
    constructor
    · intro r hr
      rw [htxt]
      have : r.Subdomain ∈ (UpdateDomainName db s n now f).1.records.map (fun r => r.Subdomain) :=
        List.mem_map_of_mem _ hr
      rw [hsub] at this
      obtain ⟨r0, hr0, he⟩ := List.mem_map.mp this
      have := h2 r0 hr0
      rw [he] at this
      exact this
    · intro t ht
      rw [htxt] at ht
      rw [hsub]
      exact ho t ht

/-- Claim C3: starting from a store in which every account subdomain has exactly two
challenge rows and no challenge row lacks an account (an empty store, for one),
every state reached by `RegisterWithName`, `Update` and `UpdateDomainName` whose
statements succeed has exactly two challenge rows per account subdomain.  From such
a state a successful `RegisterWithName` appends exactly two challenge rows for the
new subdomain, both with empty value and `LastUpdate` 0, which are then all the
rows of that subdomain; `Update` keeps the number of challenge rows and the
subdomain of each; `UpdateDomainName` leaves the challenge table as it is. -/
theorem c3_two_rows_per_subdomain_invariant (validCIDR : String → Bool) (db0 db : DBState)
    (h0 : TwoRowsPerSubdomain db0 ∧ NoOrphanRows db0) (hr : Reachable validCIDR db0 db) :
    TwoRowsPerSubdomain db
    ∧ (∀ afrom domainName env f db' a, f.txt = TxtInsertFaults.none →
        RegisterWithName validCIDR db afrom domainName env f = (db', a, none) →
        db'.txt = db.txt ++ [⟨a.Subdomain, "", 0⟩, ⟨a.Subdomain, "", 0⟩]
        ∧ db'.txt.filter (fun t => decide (t.Subdomain = a.Subdomain))
            = [⟨a.Subdomain, "", 0⟩, ⟨a.Subdomain, "", 0⟩]
        ∧ TwoRowsPerSubdomain db')
    ∧ (∀ a timenow f,
        (Update db a timenow f).1.txt.length = db.txt.length
        ∧ (Update db a timenow f).1.txt.map (fun t => t.Subdomain)
            = db.txt.map (fun t => t.Subdomain)
        ∧ TwoRowsPerSubdomain (Update db a timenow f).1)
    ∧ (∀ subdomain domainName timenow execFails,
        (UpdateDomainName db subdomain domainName timenow execFails).1.txt = db.txt
        ∧ TwoRowsPerSubdomain (UpdateDomainName db subdomain domainName timenow execFails).1) := by
  have hinv := storeInv_of_reachable validCIDR db0 db h0 hr
  refine ⟨hinv.1, ?_, ?_, ?_⟩
  · intro afrom domainName env f db' a hf hreg
    have hnext := storeInv_of_reachable validCIDR db0 db' h0
      (Reachable.register db afrom domainName env f db' a hr hf hreg)
    obtain ⟨_, hu, hdb⟩ :=
      RegisterWithName_success validCIDR db afrom domainName env f db' a hf hreg
    have hnew : a.Subdomain ∉ db.records.map (fun r => r.Subdomain) :=
      not_mem_subdomains_of_not_violatesUnique _ _ hu
    have hnil := filter_eq_nil_of_no_orphan db a.Subdomain hinv.2 hnew
    refine ⟨?_, ?_, hnext.1⟩
    · rw [hdb]; rfl
    · rw [hdb]
      simp only [List.filter_append, hnil]
      simp [freshRows, List.filter_cons]
  · intro a timenow f
    have hsub := Update_txt_subdomains db a timenow f
    refine ⟨?_, hsub, ?_⟩
    · have := congrArg List.length hsub
      simpa using this
    · exact (storeInv_of_reachable validCIDR db0 _ h0 (Reachable.update db a timenow f hr)).1
  · intro subdomain domainName timenow execFails
    refine ⟨(UpdateDomainName_txt db subdomain domainName timenow execFails).1, ?_⟩
    exact (storeInv_of_reachable validCIDR db0 _ h0
      (Reachable.updateDomainName db subdomain domainName timenow execFails hr)).1

/-- Witness for `c3_two_rows_per_subdomain_invariant`: an empty store after one
registration, one update and one label change. -/
theorem c3_two_rows_per_subdomain_invariant_witness :
    TwoRowsPerSubdomain
      (UpdateDomainName
        (Update
          (RegisterWithName (fun _ => true) ⟨[], [], []⟩ [] ""
            ⟨⟨"user", "secret", "sub", "", [], "", "", 0, 0⟩, 100, 100, "hash"⟩
            RegisterFaults.none).1
          ⟨"sub", "token"⟩ 200 UpdateFaults.none).1
        "sub" "label" 300 false).1 :=
  (c3_two_rows_per_subdomain_invariant (fun _ => true) ⟨[], [], []⟩ _
    (by constructor <;> intro r hr <;> simp at hr)
    (Reachable.updateDomainName _ "sub" "label" 300 false
      (Reachable.update _ ⟨"sub", "token"⟩ 200 UpdateFaults.none
        (Reachable.register ⟨[], [], []⟩ [] ""
          ⟨⟨"user", "secret", "sub", "", [], "", "", 0, 0⟩, 100, 100, "hash"⟩
          RegisterFaults.none _ _ Reachable.init rfl rfl)))).1

/-! ### Listing -/

theorem scanAllDomains_spec (domain : String) (scanFails : RecordRow → Bool) (rs : List RecordRow) :
    ∀ acc : List ACMETxt,
      (∀ a ∈ (scanAllDomains domain scanFails rs acc).1, a ∈ acc ∨ a.Password = "")
      ∧ ((scanAllDomains domain scanFails rs acc).2 = none →
          (scanAllDomains domain scanFails rs acc).1 = acc ++ rs.map (scanDomain domain))
      ∧ ((∀ r ∈ rs, scanFails r = false) → (scanAllDomains domain scanFails rs acc).2 = none) := by
  induction rs with
  | nil =>
    intro acc
    simp only [scanAllDomains, List.map_nil, List.append_nil, implies_true, and_true]
    exact fun a ha => Or.inl ha
  | cons r rs ih =>
    intro acc
    by_cases h : scanFails r = true
    · simp only [scanAllDomains, h, if_true]
      refine ⟨fun a ha => Or.inl ha, fun hn => by simp at hn, fun hall => ?_⟩
      have := hall r (List.mem_cons_self _ _)
      rw [h] at this
      exact absurd this (by decide)
    · have hf : scanFails r = false := by simpa using h
      obtain ⟨h1, h2, h3⟩ := ih (acc ++ [scanDomain domain r])
      simp only [scanAllDomains, hf, Bool.false_eq_true, if_false]
      refine ⟨?_, ?_, ?_⟩
      · intro a ha
        rcases h1 a ha with hm | hp
        · rcases List.mem_append.mp hm with hm | hm
          · exact Or.inl hm
          · right
            rw [List.mem_singleton.mp hm]
            rfl
        · exact Or.inr hp
      · intro hnone
        rw [h2 hnone]
        simp
      · intro hall
        exact h3 (fun x hx => hall x (List.mem_cons_of_mem _ hx))

/-- What holds of `GetAllDomains` on every run: each returned record has an empty
`Password`.  When `rows.Next` runs to the end of the table and no error is
returned, there is one record per account row, in table order, with the
`Username` and `Subdomain` of that row; and no error is returned whenever the
query and every row scan succeed. -/
theorem GetAllDomains_spec (domain : String) (db : DBState) (queryFails : Bool)
    (scanFails : RecordRow → Bool) (nextFails : Option Nat) :
    (∀ a ∈ (GetAllDomains domain db queryFails scanFails nextFails).1, a.Password = "")
    ∧ (nextFails = none → (GetAllDomains domain db queryFails scanFails nextFails).2 = none →
        (GetAllDomains domain db queryFails scanFails nextFails).1.length = db.records.length
        ∧ (GetAllDomains domain db queryFails scanFails nextFails).1.map
              (fun a => (a.Username, a.Subdomain))
            = db.records.map (fun r => (r.Username, r.Subdomain)))
    ∧ (queryFails = false → (∀ r ∈ db.records, scanFails r = false) →
        (GetAllDomains domain db queryFails scanFails nextFails).2 = none) := by
  unfold GetAllDomains
  cases queryFails with
  | true => simp
  | false =>
    obtain ⟨h1, h2, h3⟩ :=
      scanAllDomains_spec domain scanFails (deliveredRows db.records nextFails) []
    simp only [Bool.false_eq_true, if_false]
    refine ⟨?_, ?_, fun _ hall => h3 ?_⟩
    · intro a ha
      rcases h1 a ha with hm | hp
      · simp at hm
      · exact hp
    · intro hnext hnone
      subst hnext
      rw [h2 hnone]
      simp [scanDomain, deliveredRows]
    · intro r hr
      apply hall r
      cases nextFails with
      | none => exact hr
      | some n => exact List.mem_of_mem_take hr

/-- Claim C7, the code at a failing input: on a table of two accounts, when
`rows.Next` fails after the first row, `GetAllDomains` returns one record and no
error, not one record per account row; the record it returns has an empty
`Password`. -/
theorem c7_listing_truncated_without_error :
    GetAllDomains "auth.example.org"
        ⟨[], [⟨"6f1c2d3e-0a4b-4c5d-8e6f-708192a3b4c5", "hash1",
                "8b2e4f60-1c3d-4e5f-9a7b-0c1d2e3f4a5b", [], "", 1, 1⟩,
              ⟨"0d9e8f7a-6b5c-4d3e-a2f1-0b9c8d7e6f5a", "hash2",
                "1a2b3c4d-5e6f-4a7b-8c9d-0e1f2a3b4c5d", [], "n", 2, 3⟩], []⟩
        false (fun _ => false) (some 1)
      = ([⟨"6f1c2d3e-0a4b-4c5d-8e6f-708192a3b4c5", "",
            "8b2e4f60-1c3d-4e5f-9a7b-0c1d2e3f4a5b", "", [], "",
            "8b2e4f60-1c3d-4e5f-9a7b-0c1d2e3f4a5b.auth.example.org", 1, 1⟩], none) := by
  decide

/-! ### Frames -/

/-- Claim C8: `UpdateDomainName` leaves the challenge table and the version table as
they are and keeps the account rows in place, each with its `Username`, `Password`,
`Subdomain`, `AllowFrom` and `CreatedAt`, a row of another subdomain unchanged
altogether; when its statement succeeds the rows of the subdomain carry the new
`DomainName` and `UpdatedAt`.  `Update` leaves the account table and the version
table as they are. -/
theorem c8_mutator_frames (db : DBState) (subdomain domainName : String) (timenow : Int)
    (execFails : Bool) (a : ACMETxtPost) (f : UpdateFaults) :
    (UpdateDomainName db subdomain domainName timenow execFails).1.txt = db.txt
    ∧ (UpdateDomainName db subdomain domainName timenow execFails).1.acmedns = db.acmedns
    ∧ List.Forall₂ (LabelFrame subdomain) db.records
        (UpdateDomainName db subdomain domainName timenow execFails).1.records
    ∧ (execFails = false →
        ∀ r ∈ (UpdateDomainName db subdomain domainName timenow execFails).1.records,
          r.Subdomain = subdomain → r.DomainName = domainName ∧ r.UpdatedAt = timenow)
    ∧ (Update db a timenow f).1.records = db.records
    ∧ (Update db a timenow f).1.acmedns = db.acmedns := by
  refine ⟨(UpdateDomainName_txt db subdomain domainName timenow execFails).1,
    (UpdateDomainName_txt db subdomain domainName timenow execFails).2, ?_, ?_,
    (Update_records db a timenow f).1, (Update_records db a timenow f).2⟩
  · unfold UpdateDomainName
    cases execFails with
    | true =>
      simp only [if_true]
      exact List.forall₂_same.mpr (fun r _ => ⟨rfl, rfl, rfl, rfl, rfl, fun _ => rfl⟩)
    | false =>
      simp only [Bool.false_eq_true, if_false]
      rw [List.forall₂_map_right_iff]
      apply List.forall₂_same.mpr
      intro r _
      by_cases h : r.Subdomain = subdomain
      · simp [LabelFrame, h]
      · simp [LabelFrame, h]
  · intro hf r hr hs
    subst hf
    simp only [UpdateDomainName, Bool.false_eq_true, if_false, List.mem_map] at hr
    obtain ⟨r0, _, hr0⟩ := hr
    by_cases h : r0.Subdomain = subdomain
    · rw [if_pos h] at hr0
      rw [← hr0]
      exact ⟨rfl, rfl⟩
    · rw [if_neg h] at hr0
      rw [← hr0] at hs
      exact absurd hs h

/-! ### Schema migration -/

theorem insertSubdomains_none (subs : List String) :
    ∀ tx : DBState, insertSubdomains (fun _ => TxtInsertFaults.none) tx subs
      = ({ tx with txt := tx.txt ++ upgradedTxt subs }, none) := by
  induction subs with
  | nil => intro tx; simp [insertSubdomains, upgradedTxt]
  | cons x xs ih =>
    intro tx
    by_cases hx : x = ""
    · simp [insertSubdomains, upgradedTxt, hx, ih]
    · have hstep : NewTXTValuesInTransaction tx x TxtInsertFaults.none
          = ({ tx with txt := tx.txt ++ freshRows x }, none) := by
        simp [NewTXTValuesInTransaction, TxtInsertFaults.none, execInsertTxt, freshRows]
      simp only [insertSubdomains, upgradedTxt, hx, ne_eq, not_false_eq_true, if_true, hstep, ih,
        List.append_assoc]

theorem handleDBUpgradeTo1_none (db : DBState) :
    handleDBUpgradeTo1 db UpgradeTo1Faults.none
      = (⟨setVersion "1" db.acmedns, db.records,
          upgradedTxt (db.records.map (fun r => r.Subdomain))⟩, none) := by
  simp [handleDBUpgradeTo1, UpgradeTo1Faults.none, insertSubdomains_none, endTx]

theorem mem_upgradedTxt (subs : List String) (t : TxtRow) (ht : t ∈ upgradedTxt subs) :
    t = ⟨t.Subdomain, "", 0⟩ ∧ t.Subdomain ∈ subs ∧ t.Subdomain ≠ "" := by
  induction subs with
  | nil => simp [upgradedTxt] at ht
  | cons x xs ih =>
    by_cases hx : x = ""
    · simp only [upgradedTxt, hx, ne_eq, not_true_eq_false, if_false] at ht
      obtain ⟨h1, h2, h3⟩ := ih ht
      exact ⟨h1, List.mem_cons_of_mem _ h2, h3⟩
    · simp only [upgradedTxt, hx, ne_eq, not_false_eq_true, if_true, List.mem_append] at ht
      rcases ht with ht | ht
      · simp only [freshRows, List.mem_cons, List.mem_singleton, List.mem_nil_iff,
          or_false, or_self] at ht
        subst ht
        exact ⟨rfl, List.mem_cons_self _ _, hx⟩
      · obtain ⟨h1, h2, h3⟩ := ih ht
        exact ⟨h1, List.mem_cons_of_mem _ h2, h3⟩

theorem filter_upgradedTxt_of_not_mem (subs : List String) (s : String) (hs : s ∉ subs) :
    (upgradedTxt subs).filter (fun t => decide (t.Subdomain = s)) = [] := by
  rw [List.filter_eq_nil_iff]
  intro t ht hts
  have h1 : t.Subdomain = s := by simpa using hts
  exact hs (h1 ▸ (mem_upgradedTxt subs t ht).2.1)

theorem filter_upgradedTxt (subs : List String) (s : String) (hnd : subs.Nodup)
    (hs : s ∈ subs) (hne : s ≠ "") :
    (upgradedTxt subs).filter (fun t => decide (t.Subdomain = s)) = freshRows s := by
  induction subs with
  | nil => simp at hs
  | cons x xs ih =>
    have hx : x ∉ xs := (List.nodup_cons.mp hnd).1
    have hxs : xs.Nodup := (List.nodup_cons.mp hnd).2
    by_cases hsx : s = x
    · subst hsx
      have hnil := filter_upgradedTxt_of_not_mem xs s hx
      simp only [upgradedTxt, hne, ne_eq, not_false_eq_true, if_true, List.filter_append, hnil]
      simp [freshRows, List.filter_cons]
    · have hmem : s ∈ xs := by
        rcases List.mem_cons.mp hs with h | h
        · exact absurd h hsx
        · exact h
      by_cases hxe : x = ""
      · simp only [upgradedTxt, hxe, ne_eq, not_true_eq_false, if_false]
        exact ih hxs hmem
      · have hxs' : ¬ x = s := fun h => hsx h.symm
        simp only [upgradedTxt, hxe, ne_eq, not_false_eq_true, if_true, List.filter_append,
          ih hxs hmem]
        simp [freshRows, List.filter_cons, hxs']

/-- Claim C9 as stated fails: with one account `sub` whose two challenge rows exist
before the step, one of them holding the value `token`, `handleDBUpgradeTo1`
succeeds and leaves two rows with empty value for `sub`; the row holding `token`
is not kept. -/
theorem c9_upgrade_deletes_existing_rows_counterexample :
    handleDBUpgradeTo1
        ⟨[⟨"db_version", "0"⟩], [⟨"user", "hash", "sub", [], "", 0, 0⟩],
          [⟨"sub", "token", 5⟩, ⟨"sub", "", 0⟩]⟩ UpgradeTo1Faults.none
      = (⟨[⟨"db_version", "1"⟩], [⟨"user", "hash", "sub", [], "", 0, 0⟩],
          [⟨"sub", "", 0⟩, ⟨"sub", "", 0⟩]⟩, none)
    ∧ (⟨"sub", "token", 5⟩ : TxtRow) ∉ ([⟨"sub", "", 0⟩, ⟨"sub", "", 0⟩] : List TxtRow) := by
  decide

theorem sqlLiteral_cons_plain (c : Char) (t : List Char) (hc : c ≠ sqlQuote) :
    sqlLiteral (c :: t) = (sqlLiteral t).map (fun l => c :: l) := by
  cases t with
  | nil => simp [sqlLiteral, hc]
  | cons d t => simp [sqlLiteral, hc]

theorem sqlLiteral_plain (cs : List Char) (h : ∀ c ∈ cs, c ≠ sqlQuote) :
    sqlLiteral cs = some cs := by
  induction cs with
  | nil => rfl
  | cons c t ih =>
    rw [sqlLiteral_cons_plain c t (h c (List.mem_cons_self _ _)),
      ih (fun x hx => h x (List.mem_cons_of_mem _ hx))]
    rfl

/-- For a subdomain without a quote character the statement text built by
`NewTXTValuesInTransaction` holds the subdomain itself as its literal. -/
theorem splicedLiteral_plain (subdomain : String) (h : plainSubdomain subdomain = true) :
    splicedLiteral subdomain = some subdomain := by
  unfold splicedLiteral
  have hall : ∀ c ∈ subdomain.toList, c ≠ sqlQuote := by
    intro c hc
    have := List.all_eq_true.mp h c hc
    simpa using this
  rw [sqlLiteral_plain _ hall]
  rfl

/-- Claim C9, amended: for every account table whose subdomains are distinct and hold
no quote character and every prior content of the challenge table,
`handleDBUpgradeTo1` with all its statements succeeding returns no error, keeps
the account table, and leaves a challenge table that holds exactly two rows, both
with empty value and `LastUpdate` 0, for each non-empty subdomain of the account
table and no other row; the table is the same whatever it held before the step.
The statement built for each subdomain holds that subdomain as its literal. -/
theorem c9_upgrade_rebuilds_challenge_rows (db : DBState)
    (hunique : (db.records.map (fun r => r.Subdomain)).Nodup)
    (hplain : ∀ r ∈ db.records, plainSubdomain r.Subdomain = true) :
    (handleDBUpgradeTo1 db UpgradeTo1Faults.none).2 = none
    ∧ (handleDBUpgradeTo1 db UpgradeTo1Faults.none).1.records = db.records
    ∧ (∀ r ∈ db.records, splicedLiteral r.Subdomain = some r.Subdomain)
    ∧ (∀ r ∈ db.records, r.Subdomain ≠ "" →
        (handleDBUpgradeTo1 db UpgradeTo1Faults.none).1.txt.filter
            (fun t => decide (t.Subdomain = r.Subdomain))
          = [⟨r.Subdomain, "", 0⟩, ⟨r.Subdomain, "", 0⟩])
    ∧ (∀ t ∈ (handleDBUpgradeTo1 db UpgradeTo1Faults.none).1.txt,
        t = ⟨t.Subdomain, "", 0⟩ ∧ t.Subdomain ≠ ""
        ∧ t.Subdomain ∈ db.records.map (fun r => r.Subdomain))
    ∧ (handleDBUpgradeTo1 db UpgradeTo1Faults.none).1.txt
        = (handleDBUpgradeTo1 { db with txt := [] } UpgradeTo1Faults.none).1.txt := by
  rw [handleDBUpgradeTo1_none, handleDBUpgradeTo1_none]
  refine ⟨rfl, rfl, fun r hr => splicedLiteral_plain _ (hplain r hr), ?_, ?_, rfl⟩
  · intro r hr hne
    exact filter_upgradedTxt _ r.Subdomain hunique (List.mem_map_of_mem _ hr) hne
  · intro t ht
    obtain ⟨h1, h2, h3⟩ := mem_upgradedTxt _ t ht
    exact ⟨h1, h3, h2⟩

/-- Witness for `c9_upgrade_rebuilds_challenge_rows`: two accounts, one of them with
an empty subdomain, and a challenge table holding an old value. -/
theorem c9_upgrade_rebuilds_challenge_rows_witness :
    (handleDBUpgradeTo1
        ⟨[], [⟨"u1", "h1", "s1", [], "", 0, 0⟩, ⟨"u2", "h2", "", [], "", 0, 0⟩],
          [⟨"s1", "token", 5⟩]⟩ UpgradeTo1Faults.none).1.txt
      = [⟨"s1", "", 0⟩, ⟨"s1", "", 0⟩]
    ∧ (handleDBUpgradeTo1
        ⟨[], [⟨"u1", "h1", "s1", [], "", 0, 0⟩, ⟨"u2", "h2", "", [], "", 0, 0⟩],
          [⟨"s1", "token", 5⟩]⟩ UpgradeTo1Faults.none).2 = none :=
  ⟨by decide, (c9_upgrade_rebuilds_challenge_rows
      ⟨[], [⟨"u1", "h1", "s1", [], "", 0, 0⟩, ⟨"u2", "h2", "", [], "", 0, 0⟩],
        [⟨"s1", "token", 5⟩]⟩ (by decide) (by decide)).1⟩

/-- Claim C10 as stated fails: with the marker `3`, and with the marker `-1`,
`checkDBUpgrades` returns no error and changes nothing, and `Init` returns no
error. -/
theorem c10_unknown_version_accepted_counterexample :
    Atoi "3" = some 3 ∧ Atoi "-1" = some (-1)
    ∧ checkDBUpgrades ⟨[⟨"db_version", "3"⟩], [], []⟩ "3" UpgradeFaults.none
      = (⟨[⟨"db_version", "3"⟩], [], []⟩, none)
    ∧ Init ⟨[⟨"db_version", "3"⟩], [], []⟩ InitFaults.none
      = (⟨[⟨"db_version", "3"⟩], [], []⟩, none)
    ∧ checkDBUpgrades ⟨[⟨"db_version", "-1"⟩], [], []⟩ "-1" UpgradeFaults.none
      = (⟨[⟨"db_version", "-1"⟩], [], []⟩, none)
    ∧ Init ⟨[⟨"db_version", "-1"⟩], [], []⟩ InitFaults.none
      = (⟨[⟨"db_version", "-1"⟩], [], []⟩, none) := by
  decide

/-- Claim C10, amended: for every marker value that parses as an integer other than
0, 1 and `DBVersion` = 2, `checkDBUpgrades` runs no upgrade step, leaves the
database as it is and returns no error, whatever the outcome an upgrade statement
would have had; `Init` on a database holding that marker then returns no error
either, once the connection is open. -/
theorem c10_unknown_version_runs_no_upgrade (db : DBState) (versionString : String)
    (version : Int) (f : InitFaults)
    (hparse : Atoi versionString = some version)
    (h0 : version ≠ 0) (h1 : version ≠ 1) (h2 : version ≠ DBVersion) :
    checkDBUpgrades db versionString f.upgrade = (db, none)
    ∧ (readVersionString db = versionString → f.open_ = false → Init db f = (db, none)) := by
  have hcheck : checkDBUpgrades db versionString f.upgrade = (db, none) := by
    simp [checkDBUpgrades, hparse, h2, handleDBUpgrades, h0, h1]
  refine ⟨hcheck, ?_⟩
  intro hread hopen
  have hne : versionString ≠ "" := by
    intro he
    rw [he] at hparse
    have : Atoi "" = none := by decide
    rw [this] at hparse
    exact Option.noConfusion hparse
  have hne0 : versionString ≠ "0" := by
    intro he
    rw [he] at hparse
    have : Atoi "0" = some 0 := by decide
    rw [this] at hparse
    exact h0 (Option.some.inj hparse).symm
  simp [Init, hopen, hread, hne, hne0, hcheck]

/-- Witness for `c10_unknown_version_runs_no_upgrade`: the marker `3`, with every
upgrade statement set to fail. -/
theorem c10_unknown_version_runs_no_upgrade_witness :
    checkDBUpgrades ⟨[⟨"db_version", "3"⟩], [], []⟩ "3"
        ⟨⟨true, true, true, true, fun _ => ⟨true, true⟩, true⟩, ⟨true, true, true⟩⟩
      = (⟨[⟨"db_version", "3"⟩], [], []⟩, none)
    ∧ Init ⟨[⟨"db_version", "3"⟩], [], []⟩
        ⟨false, ⟨⟨true, true, true, true, fun _ => ⟨true, true⟩, true⟩, ⟨true, true, true⟩⟩, true⟩
      = (⟨[⟨"db_version", "3"⟩], [], []⟩, none) :=
  ⟨(c10_unknown_version_runs_no_upgrade ⟨[⟨"db_version", "3"⟩], [], []⟩ "3" 3
      ⟨false, ⟨⟨true, true, true, true, fun _ => ⟨true, true⟩, true⟩, ⟨true, true, true⟩⟩, true⟩
      (by decide) (by decide) (by decide) (by decide)).1,
   (c10_unknown_version_runs_no_upgrade ⟨[⟨"db_version", "3"⟩], [], []⟩ "3" 3
      ⟨false, ⟨⟨true, true, true, true, fun _ => ⟨true, true⟩, true⟩, ⟨true, true, true⟩⟩, true⟩
      (by decide) (by decide) (by decide) (by decide)).2 (by decide) rfl⟩

/-- Claim C11 as stated fails: with the marker `abc`, which does not parse as an
integer, `Init` runs no upgrade step and returns the error of `strconv.Atoi`. -/
theorem c11_unparseable_marker_counterexample :
    Atoi "abc" = none
    ∧ Init ⟨[⟨"db_version", "abc"⟩], [⟨"user", "hash", "sub", [], "", 0, 0⟩], []⟩ InitFaults.none
      = (⟨[⟨"db_version", "abc"⟩], [⟨"user", "hash", "sub", [], "", 0, 0⟩], []⟩,
         some "strconv.Atoi: parsing abc: invalid syntax") := by
  decide

/-- Claim C11, amended: `Init` coerces only the empty marker (no marker row, or an
empty value) to version "0" and then runs the upgrade chain from version 0.  For
every non-empty marker value that does not parse as an integer, `checkDBUpgrades`
returns the error of `strconv.Atoi`, and `Init`, once the connection is open, runs
no upgrade step, leaves the database as it is and returns that error. -/
theorem c11_only_empty_marker_coerced (db : DBState) (versionString : String) (f : InitFaults)
    (hread : readVersionString db = versionString) (hopen : f.open_ = false) :
    (versionString = "" →
        Init db f =
          match handleDBUpgrades db 0 f.upgrade with
          | (db, some e) => (db, some e)
          | (db, none) =>
            if f.insertVersion then (db, some "insert")
            else ({ db with acmedns := db.acmedns ++ [⟨"db_version", "2"⟩] }, none))
    ∧ (versionString ≠ "" → Atoi versionString = none →
        checkDBUpgrades db versionString f.upgrade
          = (db, some ("strconv.Atoi: parsing " ++ versionString ++ ": invalid syntax"))
        ∧ Init db f
          = (db, some ("strconv.Atoi: parsing " ++ versionString ++ ": invalid syntax"))) := by
  constructor
  · intro hempty
    have h0 : Atoi "0" = some 0 := by decide
    have hv : (0 : Int) ≠ DBVersion := by decide
    have hcheck : checkDBUpgrades db "0" f.upgrade = handleDBUpgrades db 0 f.upgrade := by
      simp [checkDBUpgrades, h0, hv]
    have hstr : toString DBVersion = "2" := by decide
    simp only [Init, hopen, hread, hempty, Bool.false_eq_true, if_false, if_true, hcheck, hstr]
  · intro hne hparse
    have hcheck : checkDBUpgrades db versionString f.upgrade
        = (db, some ("strconv.Atoi: parsing " ++ versionString ++ ": invalid syntax")) := by
      simp [checkDBUpgrades, hparse]
    refine ⟨hcheck, ?_⟩
    simp [Init, hopen, hread, hne, hcheck]

/-- Witness for `c11_only_empty_marker_coerced`: the marker `abc` on a database with
one account. -/
theorem c11_only_empty_marker_coerced_witness :
    Init ⟨[⟨"db_version", "abc"⟩], [⟨"user", "hash", "sub", [], "", 0, 0⟩], []⟩ InitFaults.none
      = (⟨[⟨"db_version", "abc"⟩], [⟨"user", "hash", "sub", [], "", 0, 0⟩], []⟩,
         some ("strconv.Atoi: parsing " ++ "abc" ++ ": invalid syntax")) :=
  ((c11_only_empty_marker_coerced
      ⟨[⟨"db_version", "abc"⟩], [⟨"user", "hash", "sub", [], "", 0, 0⟩], []⟩ "abc"
      InitFaults.none (by decide) rfl).2 (by decide) (by decide)).2

/-! ### Least-recently-updated rotation -/

theorem filter_other_rewriteFirst (s : String) (p : TxtRow → Bool) (f : TxtRow → TxtRow)
    (hp : ∀ r, p r = true → r.Subdomain = s) (hf : ∀ r, (f r).Subdomain = r.Subdomain)
    (t : List TxtRow) :
    (rewriteFirst p f t).filter (fun r => decide (r.Subdomain ≠ s))
      = t.filter (fun r => decide (r.Subdomain ≠ s)) := by
  induction t with
  | nil => rfl
  | cons r rs ih =>
    by_cases h : p r = true
    · have hs : r.Subdomain = s := hp r h
      simp [rewriteFirst, h, List.filter_cons, hs, hf]
    · by_cases hs : r.Subdomain = s
      · simpa [rewriteFirst, h, List.filter_cons, hs] using ih
      · simpa [rewriteFirst, h, List.filter_cons, hs] using ih

theorem Update_other_rows (db : DBState) (s v : String) (now : Int) :
    (Update db ⟨s, v⟩ now UpdateFaults.none).1.txt.filter (fun r => decide (r.Subdomain ≠ s))
      = db.txt.filter (fun r => decide (r.Subdomain ≠ s)) := by
  simp only [Update, UpdateFaults.none, Bool.false_eq_true, if_false]
  rw [updateTxt_eq_rewriteFirst]
  cases minLastUpdate s db.txt with
  | none => rfl
  | some m =>
    exact filter_other_rewriteFirst s (fun r => decide (r.Subdomain = s ∧ r.LastUpdate = m))
      (fun r => { r with Value := v, LastUpdate := now })
      (fun r hr => by simp at hr; exact hr.1) (fun _ => rfl) db.txt

theorem runUpdates_other_rows (s : String) (ws : List (String × Int)) :
    ∀ db : DBState,
      (runUpdates db s ws).txt.filter (fun r => decide (r.Subdomain ≠ s))
        = db.txt.filter (fun r => decide (r.Subdomain ≠ s)) := by
  induction ws with
  | nil => intro db; rfl
  | cons w ws ih =>
    intro db
    simp only [runUpdates]
    rw [ih, Update_other_rows]

theorem clock_before (pre : List (String × Int)) (w : String × Int) (post : List (String × Int))
    (h : ((pre ++ w :: post).map Prod.snd).Sorted (· < ·)) :
    (∀ w' ∈ pre, w'.2 < w.2) ∧ (pre.map Prod.snd).Sorted (· < ·) := by
  have hs : List.Sorted (· < ·) (pre.map Prod.snd ++ (w.2 :: post.map Prod.snd)) := by
    simpa using h
  have hp := List.pairwise_append.mp hs
  exact ⟨fun w' hw' => hp.2.2 w'.2 (List.mem_map_of_mem _ hw') w.2 (List.mem_cons_self _ _), hp.1⟩

/-- After a last update `w0`, later than the last write of either row and than every
update before it, one row holds `w0` and the other was last written before it. -/
theorem rows_after_last_update (db : DBState) (s : String) (pre : List (String × Int))
    (w0 : String × Int) (x0 y0 : TxtRow)
    (h : db.txt.filter (fun r => decide (r.Subdomain = s)) = [x0, y0])
    (hx : x0.LastUpdate < w0.2) (hy : y0.LastUpdate < w0.2) (hpre : ∀ w ∈ pre, w.2 < w0.2) :
    ∃ other : TxtRow, other.LastUpdate < w0.2
      ∧ ((runUpdates db s (pre ++ [w0])).txt.filter (fun r => decide (r.Subdomain = s))
            = [⟨s, w0.1, w0.2⟩, other]
        ∨ (runUpdates db s (pre ++ [w0])).txt.filter (fun r => decide (r.Subdomain = s))
            = [other, ⟨s, w0.1, w0.2⟩]) := by
  obtain ⟨x, y, hxy, hx', hy'⟩ := runUpdates_two_rows s w0.2 pre db ⟨_, _, h, hx, hy⟩ hpre
  rw [runUpdates_append]
  simp only [runUpdates]
  have hstep := filter_Update_pair (runUpdates db s pre) s w0.1 w0.2 x y hxy
  by_cases hle : x.LastUpdate ≤ y.LastUpdate
  · rw [if_pos hle] at hstep
    exact ⟨y, hy', Or.inl hstep⟩
  · rw [if_neg hle] at hstep
    exact ⟨x, hx', Or.inr hstep⟩

/-- Claim C12: on a subdomain holding the two rows of a registration, with the clock
readings of the `Update` calls strictly increasing and greater than 0, every call
overwrites in place the row whose `LastUpdate` is not the larger one (the strictly
smaller one from the second call on; at the first call both are 0) with its value
and its clock reading and keeps the other row.  After one call the rows hold the
written value and the empty string; after two or more they hold exactly the last
two written values with the readings of their calls.  The rows of every other
subdomain stay as they were. -/
theorem c12_least_recently_updated_rotation (db : DBState) (s : String)
    (writes : List (String × Int))
    (hfresh : db.txt.filter (fun r => decide (r.Subdomain = s)) = freshRows s)
    (hclock : (writes.map Prod.snd).Sorted (· < ·))
    (hpos : ∀ w ∈ writes, 0 < w.2) :
    (∀ pre w post, writes = pre ++ w :: post →
      ∃ old kept : TxtRow, old.LastUpdate ≤ kept.LastUpdate
        ∧ (pre ≠ [] → old.LastUpdate < kept.LastUpdate)
        ∧ (((runUpdates db s pre).txt.filter (fun r => decide (r.Subdomain = s)) = [old, kept]
            ∧ (runUpdates db s (pre ++ [w])).txt.filter (fun r => decide (r.Subdomain = s))
                = [⟨s, w.1, w.2⟩, kept])
          ∨ ((runUpdates db s pre).txt.filter (fun r => decide (r.Subdomain = s)) = [kept, old]
            ∧ (runUpdates db s (pre ++ [w])).txt.filter (fun r => decide (r.Subdomain = s))
                = [kept, ⟨s, w.1, w.2⟩])))
    ∧ (∀ w, writes = [w] →
        (runUpdates db s writes).txt.filter (fun r => decide (r.Subdomain = s))
          = [⟨s, w.1, w.2⟩, ⟨s, "", 0⟩])
    ∧ (∀ pre w1 w2, writes = pre ++ [w1, w2] →
        (runUpdates db s writes).txt.filter (fun r => decide (r.Subdomain = s))
            = [⟨s, w1.1, w1.2⟩, ⟨s, w2.1, w2.2⟩]
        ∨ (runUpdates db s writes).txt.filter (fun r => decide (r.Subdomain = s))
            = [⟨s, w2.1, w2.2⟩, ⟨s, w1.1, w1.2⟩])
    ∧ (runUpdates db s writes).txt.filter (fun r => decide (r.Subdomain ≠ s))
        = db.txt.filter (fun r => decide (r.Subdomain ≠ s)) := by
  refine ⟨?_, ?_, ?_, runUpdates_other_rows s writes db⟩
  · intro pre w post hsplit
    subst hsplit
    obtain ⟨hbefore, hsorted⟩ := clock_before pre w post hclock
    rcases List.eq_nil_or_concat pre with hnil | ⟨pre', w0, hconcat⟩
    · subst hnil
      refine ⟨⟨s, "", 0⟩, ⟨s, "", 0⟩, le_refl _, fun h => absurd rfl h, Or.inl ⟨hfresh, ?_⟩⟩
      have hstep := filter_Update_pair db s w.1 w.2 _ _ hfresh
      simpa [runUpdates] using hstep
    · rw [List.concat_eq_append] at hconcat
      subst hconcat
      have hw0 : w0.2 < w.2 := hbefore w0 (by simp)
      have hpos0 : (0 : Int) < w0.2 := hpos w0 (by simp)
      have hpre' : ∀ w' ∈ pre', w'.2 < w0.2 := by
        have hs' : ((pre' ++ w0 :: []).map Prod.snd).Sorted (· < ·) := by simpa using hsorted
        exact (clock_before pre' w0 [] hs').1
      obtain ⟨other, hother, hrows⟩ :=
        rows_after_last_update db s pre' w0 ⟨s, "", 0⟩ ⟨s, "", 0⟩ hfresh hpos0 hpos0 hpre'
      have hrun : runUpdates db s (pre' ++ [w0] ++ [w])
          = (Update (runUpdates db s (pre' ++ [w0])) ⟨s, w.1⟩ w.2 UpdateFaults.none).1 := by
        rw [runUpdates_append]; rfl
      rcases hrows with h | h
      · have hstep := filter_Update_pair (runUpdates db s (pre' ++ [w0])) s w.1 w.2 _ _ h
        have hn : ¬ (w0.2 ≤ other.LastUpdate) := by omega
        rw [if_neg hn] at hstep
        refine ⟨other, ⟨s, w0.1, w0.2⟩, le_of_lt hother, fun _ => hother, Or.inr ⟨h, ?_⟩⟩
        rw [hrun]; exact hstep
      · have hstep := filter_Update_pair (runUpdates db s (pre' ++ [w0])) s w.1 w.2 _ _ h
        have hle : other.LastUpdate ≤ w0.2 := le_of_lt hother
        rw [if_pos hle] at hstep
        refine ⟨other, ⟨s, w0.1, w0.2⟩, hle, fun _ => hother, Or.inl ⟨h, ?_⟩⟩
        rw [hrun]; exact hstep
  · intro w hw
    subst hw
    have hstep := filter_Update_pair db s w.1 w.2 _ _ hfresh
    simpa [runUpdates] using hstep
  · intro pre w1 w2 hsplit
    subst hsplit
    obtain ⟨hbefore, _⟩ := clock_before pre w1 [w2] hclock
    have h1 : (0 : Int) < w1.2 := hpos w1 (by simp)
    obtain ⟨x, y, hxy, hx, hy⟩ := runUpdates_two_rows s w1.2 pre db
      ⟨_, _, hfresh, h1, h1⟩ hbefore
    rw [runUpdates_append]
    exact last_two_updates (runUpdates db s pre) s w1.1 w2.1 w1.2 w2.2 x y hxy hx hy

/-- Witness for `c12_least_recently_updated_rotation`: three updates at seconds 100,
101, 102 next to the rows of another subdomain; the third overwrites the row
written by the first. -/
theorem c12_least_recently_updated_rotation_witness :
    (runUpdates ⟨[], [], [⟨"other", "x", 7⟩, ⟨"sub", "", 0⟩, ⟨"other", "y", 9⟩, ⟨"sub", "", 0⟩]⟩
        "sub" [("v1", 100), ("v2", 101), ("v3", 102)]).txt
      = [⟨"other", "x", 7⟩, ⟨"sub", "v3", 102⟩, ⟨"other", "y", 9⟩, ⟨"sub", "v2", 101⟩]
    ∧ (runUpdates ⟨[], [], [⟨"other", "x", 7⟩, ⟨"sub", "", 0⟩, ⟨"other", "y", 9⟩, ⟨"sub", "", 0⟩]⟩
        "sub" [("v1", 100), ("v2", 101), ("v3", 102)]).txt.filter
          (fun r => decide (r.Subdomain ≠ "sub"))
      = (⟨[], [], [⟨"other", "x", 7⟩, ⟨"sub", "", 0⟩, ⟨"other", "y", 9⟩, ⟨"sub", "", 0⟩]⟩
          : DBState).txt.filter (fun r => decide (r.Subdomain ≠ "sub")) :=
  ⟨by decide,
   (c12_least_recently_updated_rotation
      ⟨[], [], [⟨"other", "x", 7⟩, ⟨"sub", "", 0⟩, ⟨"other", "y", 9⟩, ⟨"sub", "", 0⟩]⟩ "sub"
      [("v1", 100), ("v2", 101), ("v3", 102)] (by decide) (by decide) (by decide)).2.2.2⟩

/-! ### Label-update handler -/

theorem byteLen_append (a b : List Char) : byteLen (a ++ b) = byteLen a + byteLen b := by
  induction a with
  | nil => simp [byteLen]
  | cons c cs ih => simp [byteLen, ih, Nat.add_assoc]

theorem bytePrefix_append (a b : List Char) : bytePrefix (a ++ b) (byteLen a) = a := by
  induction a with
  | nil =>
    cases b with
    | nil => rfl
    | cons c cs =>
      have := Char.utf8Size_pos c
      have hn : ¬ c.utf8Size ≤ 0 := by omega
      simp [bytePrefix, byteLen, hn]
  | cons c cs ih =>
    simp [bytePrefix, byteLen, ih]

theorem byteLen_pos_of_ne_empty (s : String) (hs : s ≠ "") : 0 < byteLen s.toList := by
  cases hl : s.toList with
  | nil =>
    exfalso
    apply hs
    cases s
    simp_all [String.toList]
  | cons c cs =>
    have := Char.utf8Size_pos c
    simp only [byteLen]
    omega

theorem extractSubdomain_compose (D s : String) (hs : s ≠ "") :
    extractSubdomain D (s ++ "." ++ D) = s := by
  have hlist : (s ++ "." ++ D).toList = s.toList ++ ('.' :: D.toList) := by
    simp [String.toList, String.data_append]
  have hdot : byteLen ('.' :: D.toList) = 1 + byteLen D.toList := rfl
  have hpos := byteLen_pos_of_ne_empty s hs
  have hlen : goLen (s ++ "." ++ D) = byteLen s.toList + (1 + byteLen D.toList) := by
    simp only [goLen, hlist, byteLen_append, hdot]
  have hgt : goLen (s ++ "." ++ D) > goLen D + 1 := by
    rw [hlen]; simp only [goLen]; omega
  have hsub : goLen (s ++ "." ++ D) - goLen D - 1 = byteLen s.toList := by
    rw [hlen]; simp only [goLen]; omega
  simp only [extractSubdomain, hgt, if_true, hsub, goSliceTo, hlist, bytePrefix_append]
  rfl

/-- Claim C13: for every base domain `D` and every non-empty subdomain `s`, the
subdomain `webUpdateName` extracts from the full domain `s + "." + D` is `s`; the
handler calls `UpdateDomainName` with that `s` and the requested name, whatever
the store method is, and answers from its result; and the full domain
`GetAllDomains` builds for an account row of subdomain `s` is one from which `s`
is extracted. -/
theorem c13_subdomain_extraction_roundtrip {σ : Type} (D s domainName : String)
    (updateDomainName : String → String → σ → σ × Option Error) (st : σ) (hs : s ≠ "") :
    extractSubdomain D (s ++ "." ++ D) = s
    ∧ webUpdateName D updateDomainName (some ⟨s ++ "." ++ D, domainName⟩) st
      = (match updateDomainName s domainName st with
          | (st, some _) => (st, ⟨500, UpdateNameBody.jsonError "db_error"⟩)
          | (st, none) => (st, ⟨200, UpdateNameBody.success (s ++ "." ++ D) domainName⟩))
    ∧ (∀ r : RecordRow, r.Subdomain = s →
        (scanDomain D r).Fulldomain = s ++ "." ++ D
        ∧ extractSubdomain D (scanDomain D r).Fulldomain = s) := by
  have hext := extractSubdomain_compose D s hs
  refine ⟨hext, ?_, ?_⟩
  · have hfull : s ++ "." ++ D ≠ "" := by
      intro he
      have hl := congrArg String.toList he
      simp [String.toList, String.data_append] at hl
    simp only [webUpdateName, hfull, if_false, hext, hs]
  · intro r hr
    subst hr
    exact ⟨rfl, hext⟩

/-- Witness for `c13_subdomain_extraction_roundtrip`: the full domain of subdomain
`sub` under `auth.example.org`, sent to a handler backed by `UpdateDomainName`. -/
theorem c13_subdomain_extraction_roundtrip_witness :
    extractSubdomain "auth.example.org" ("sub" ++ "." ++ "auth.example.org") = "sub"
    ∧ webUpdateName "auth.example.org"
        (fun subdomain name db => UpdateDomainName db subdomain name 300 false)
        (some ⟨"sub.auth.example.org", "label"⟩)
        (⟨[], [⟨"user", "hash", "sub", [], "", 100, 100⟩], freshRows "sub"⟩ : DBState)
      = (⟨[], [⟨"user", "hash", "sub", [], "label", 100, 300⟩], freshRows "sub"⟩,
         ⟨200, UpdateNameBody.success "sub.auth.example.org" "label"⟩) :=
  ⟨(@c13_subdomain_extraction_roundtrip DBState "auth.example.org" "sub" "label"
      (fun subdomain name db => UpdateDomainName db subdomain name 300 false)
      ⟨[], [⟨"user", "hash", "sub", [], "", 100, 100⟩], freshRows "sub"⟩ (by decide)).1,
   by decide⟩

end AcmeDns
